import Mathlib

/-!
# Cache simulator: shallow embedding and verified properties

The development embeds `memory_system.c` and `replacement_policies.c`.

Conventions of the embedding.

* `uint32_t` values are natural numbers; every C operation that can leave the
  32-bit range is followed by `wrap32`.
* `int` values obtained from a `uint32_t` go through `to_int` (two's
  complement), so a value of 2^31 or more becomes negative, as the comparison
  `evicted_index < 0` in the source expects.
* `>>` on a `uint32_t` is `shr32`.  C defines the shift for a count below 32
  only; for a larger count `shr32` takes the count modulo 32, as the shift
  instructions of x86 do (`0xffffffff >> 32` is then `0xffffffff`, and
  `address >> 32` is `address`).  The theorems that equate the decode with the
  specified one assume widths for which every count is below 32, and do not
  depend on this choice; the two theorems at the widths 4 + 28 + 0 show what a
  count of 32 gives.
* Loop counters and sums of `int` values are mathematical integers; they stay
  below 2^31 on every set that `set_allocated` describes.
* The heap arrays (`cache_lines`, `ages`) are lists.  A read or a write outside
  the allocated list is `Fault.undefined`; `exit(1)` is `Fault.exit 1`.
* The replacement policy is a record of the two function pointers together with
  its private `data`; the header asks policies to treat the cache system as
  read-only, so a policy returns only its own new data.
* `printf` and `fprintf` calls have no counterpart.
-/

namespace CacheSim

/-! ## Machine arithmetic -/

/-- The constant `UINT32_MAX` of `stdint.h`. -/
def UINT32_MAX : Nat := 4294967295

/-- Reduction of a natural number to the range of `uint32_t`. -/
def wrap32 (n : Nat) : Nat := n % 4294967296

/-- Subtraction of two `uint32_t` values, in `uint32_t`. -/
def sub32 (a b : Nat) : Nat := (a + 4294967296 - b % 4294967296) % 4294967296

/-- Conversion of a `uint32_t` value to `int` (two's complement). -/
def to_int (u : Nat) : Int :=
  if u < 2147483648 then (u : Int) else (u : Int) - 4294967296

/-- The operator `>>` of C on a `uint32_t` value, for a `uint32_t` count.  The
result is defined by C for a count below 32 only; for a larger count the count
is taken modulo 32, as the shift instructions of x86 do. -/
def shr32 (x count : Nat) : Nat := x >>> (count % 32)

/-- Ways in which a call can fail to return. -/
inductive Fault where
  | undefined : Fault
  | exit (code : Nat) : Fault
  deriving DecidableEq, Repr

/-! ## Data model (`memory_system.h`) -/

/-- The enum `cache_status`. -/
inductive cache_status where
  | INVALID : cache_status
  | EXCLUSIVE : cache_status
  | MODIFIED : cache_status
  deriving DecidableEq, Repr

open cache_status

/-- The struct `cache_line`. -/
structure cache_line where
  tag : Nat
  status : cache_status
  deriving DecidableEq, Repr

/-- The struct `cache_system_stats`. -/
structure cache_system_stats where
  accesses : Nat
  hits : Nat
  misses : Nat
  dirty_evictions : Nat
  deriving DecidableEq, Repr

/-- The struct `cache_system`, without the pointer to the replacement policy,
which is passed next to it. -/
structure cache_system where
  stats : cache_system_stats
  line_size : Nat
  num_sets : Nat
  associativity : Nat
  index_bits : Nat
  tag_bits : Nat
  offset_bits : Nat
  cache_lines : List cache_line
  offset_mask : Nat
  set_index_mask : Nat
  deriving DecidableEq, Repr

/-- The struct `replacement_policy`: the function pointers `eviction_index` and
`cache_access`, and the policy's `data`.  `eviction_index` returns the
`uint32_t` slot and the policy data (a policy may consume state, such as a
random generator). -/
structure replacement_policy (σ : Type) where
  eviction_index : σ → cache_system → Nat → Except Fault (Nat × σ)
  cache_access : σ → cache_system → Nat → Nat → Except Fault σ
  data : σ

/-- Read of `cache_lines[k]` for an `int` index `k`. -/
def line_at (lines : List cache_line) (k : Int) : Option cache_line :=
  if 0 ≤ k then lines[k.toNat]? else none

/-! ## `memory_system.c` -/

/-- The mask `0xffffffff >> (32 - offset_bits)` of `cache_system_new`.  The
count is below 32 when `1 ≤ offset_bits ≤ 32`; at `offset_bits = 0` the source
shifts by 32. -/
def offset_mask_of (offset_bits : Nat) : Nat :=
  shr32 4294967295 (sub32 32 offset_bits)

/-- The mask `0xffffffff >> tag_bits` of `cache_system_new`.  The count is below
32 when `tag_bits ≤ 31`. -/
def set_index_mask_of (tag_bits : Nat) : Nat :=
  shr32 4294967295 tag_bits

/-- The function `cache_system_new`.  The three bit widths are the constants
the source assigns; `calloc` zero-fills, so every line is `INVALID` with tag 0. -/
def cache_system_new (line_size sets associativity : Nat) : cache_system :=
  { stats := ⟨0, 0, 0, 0⟩
    line_size := line_size
    num_sets := sets
    associativity := associativity
    index_bits := 0
    tag_bits := 0
    offset_bits := 0
    cache_lines := List.replicate (wrap32 (sets * associativity)) ⟨0, INVALID⟩
    offset_mask := offset_mask_of 0
    set_index_mask := set_index_mask_of 0 }

/-- The function `cache_system_find_cache_line`: the index of the line found,
or `none` for `NULL`.  The source returns `NULL` on every input. -/
def cache_system_find_cache_line (_cs : cache_system) (_set_idx _tag : Nat) :
    Option Nat :=
  none

/-- The `offset` computed at the head of `cache_system_mem_access`. -/
def decode_offset (cs : cache_system) (address : Nat) : Nat :=
  address &&& cs.offset_mask

/-- The `set_idx` computed at the head of `cache_system_mem_access`:
`(address & set_index_mask) >> offset_bits`.  The count is below 32 when
`offset_bits ≤ 31`. -/
def decode_set_idx (cs : cache_system) (address : Nat) : Nat :=
  shr32 (address &&& cs.set_index_mask) cs.offset_bits

/-- The `tag` computed at the head of `cache_system_mem_access`:
`address >> (offset_bits + index_bits)`.  The count is below 32 when
`offset_bits + index_bits ≤ 31`. -/
def decode_tag (cs : cache_system) (address : Nat) : Nat :=
  shr32 address (wrap32 (cs.offset_bits + cs.index_bits))

/-- The `int set_start = set_idx * associativity` of the source. -/
def set_start_of (cs : cache_system) (set_idx : Nat) : Int :=
  to_int (wrap32 (set_idx * cs.associativity))

/-- The loop of `cache_system_mem_access` that looks for an open slot: slots
`i, i+1, ...` (`n` of them) are read in order and the first `INVALID` one is
returned. -/
def first_invalid (lines : List cache_line) (set_start : Int) :
    Nat → Nat → Except Fault (Option Nat)
  | 0, _ => .ok none
  | n + 1, i =>
    match line_at lines (set_start + (i : Int)) with
    | none => .error Fault.undefined
    | some l =>
      if l.status = INVALID then .ok (some i)
      else first_invalid lines set_start n (i + 1)

/-- The result of one call of `cache_system_mem_access`: the returned `int`,
the cache system and the policy data after the call. -/
structure access_result (σ : Type) where
  ret : Int
  cs : cache_system
  data : σ
  deriving DecidableEq, Repr

/-- Increment of `stats.accesses`. -/
def count_access (cs : cache_system) : cache_system :=
  { cs with stats := { cs.stats with accesses := wrap32 (cs.stats.accesses + 1) } }

/-- Increment of `stats.hits`. -/
def count_hit (cs : cache_system) : cache_system :=
  { cs with stats := { cs.stats with hits := wrap32 (cs.stats.hits + 1) } }

/-- Increment of `stats.misses`. -/
def count_miss (cs : cache_system) : cache_system :=
  { cs with stats := { cs.stats with misses := wrap32 (cs.stats.misses + 1) } }

/-- Increment of `stats.dirty_evictions`. -/
def count_dirty_eviction (cs : cache_system) : cache_system :=
  { cs with stats :=
      { cs.stats with dirty_evictions := wrap32 (cs.stats.dirty_evictions + 1) } }

/-- The status given to a line on install: `(rw == 'W') ? MODIFIED : EXCLUSIVE`. -/
def install_status (rw : Char) : cache_status :=
  if rw = 'W' then MODIFIED else EXCLUSIVE

/-- The store `cl->tag = tag; cl->status = ...` at index `k`, a slot that the
caller has just read. -/
def store_line (cs : cache_system) (k : Int) (l : cache_line) : cache_system :=
  { cs with cache_lines := cs.cache_lines.set k.toNat l }

/-- The tail of `cache_system_mem_access`: the policy is told of the access and
the call returns 0. -/
def notify_policy {σ : Type} (rp : replacement_policy σ) (cs : cache_system)
    (data : σ) (set_idx tag : Nat) : Except Fault (access_result σ) :=
  match rp.cache_access data cs set_idx tag with
  | .error e => .error e
  | .ok data1 => .ok ⟨0, cs, data1⟩

/-- The miss branch of `cache_system_mem_access`. -/
def mem_access_miss {σ : Type} (rp : replacement_policy σ) (cs0 : cache_system)
    (set_idx tag : Nat) (rw : Char) : Except Fault (access_result σ) :=
  let cs := count_miss cs0
  let set_start := set_start_of cs set_idx
  match first_invalid cs.cache_lines set_start cs.associativity 0 with
  | .error e => .error e
  | .ok (some insert_index) =>
    notify_policy rp
      (store_line cs (set_start + (insert_index : Int)) ⟨tag, install_status rw⟩)
      rp.data set_idx tag
  | .ok none =>
    match rp.eviction_index rp.data cs set_idx with
    | .error e => .error e
    | .ok (r, data1) =>
      let evicted_index := to_int r
      if evicted_index < 0 ∨ cs.associativity ≤ r then .ok ⟨1, cs, data1⟩
      else
        match line_at cs.cache_lines (set_start + evicted_index) with
        | none => .error Fault.undefined
        | some evicted =>
          let cs1 := if evicted.status = MODIFIED then count_dirty_eviction cs else cs
          notify_policy rp
            (store_line cs1 (set_start + evicted_index) ⟨tag, install_status rw⟩)
            data1 set_idx tag

/-- The hit branch of `cache_system_mem_access`, for the line at index `k`. -/
def mem_access_hit {σ : Type} (rp : replacement_policy σ) (cs0 : cache_system)
    (k : Nat) (l : cache_line) (set_idx tag : Nat) (rw : Char) :
    Except Fault (access_result σ) :=
  let cs := count_hit cs0
  let cs1 := if rw = 'W' then store_line cs (k : Int) { l with status := MODIFIED } else cs
  notify_policy rp cs1 rp.data set_idx tag

/-- The function `cache_system_mem_access`. -/
def cache_system_mem_access {σ : Type} (rp : replacement_policy σ)
    (cs0 : cache_system) (address : Nat) (rw : Char) :
    Except Fault (access_result σ) :=
  let cs := count_access cs0
  let set_idx := decode_set_idx cs address
  let tag := decode_tag cs address
  match cache_system_find_cache_line cs set_idx tag with
  | none => mem_access_miss rp cs set_idx tag rw
  | some k =>
    match cs.cache_lines[k]? with
    | none => .error Fault.undefined
    | some l =>
      if l.status = INVALID then mem_access_miss rp cs set_idx tag rw
      else mem_access_hit rp cs k l set_idx tag rw

/-- The state between calls: the cache system, the policy data, and the values
returned so far (oldest first). -/
structure sim_state (σ : Type) where
  cs : cache_system
  data : σ
  rets : List Int
  deriving DecidableEq, Repr

/-- Consecutive calls of `cache_system_mem_access` on a list of
`(address, rw)` pairs; every call is made, whatever the previous one returned. -/
def run_accesses {σ : Type} (rp : replacement_policy σ) (cs : cache_system)
    (rets : List Int) : List (Nat × Char) → Except Fault (sim_state σ)
  | [] => .ok ⟨cs, rp.data, rets⟩
  | (address, rw) :: rest =>
    match cache_system_mem_access rp cs address rw with
    | .error e => .error e
    | .ok r => run_accesses { rp with data := r.data } r.cs (rets ++ [r.ret]) rest

/-! ## `replacement_policies.c` -/

/-- The struct `lru_data`: the 2D array `ages` and the two sizes. -/
structure lru_data where
  ages : List (List Nat)
  sets : Nat
  associativity : Nat
  deriving DecidableEq, Repr

/-- The search loop of `lru_cache_access`: slots `i, i+1, ...` (`n` of them) of
the set that starts at `start_index` are read in order, and the first one that
is not `INVALID` and holds `tag` is returned.  The index `start_index + i` is
computed in `uint32_t`. -/
def lru_find_accessed (lines : List cache_line) (start_index tag : Nat) :
    Nat → Nat → Except Fault (Option Nat)
  | 0, _ => .ok none
  | n + 1, i =>
    match lines[wrap32 (start_index + i)]? with
    | none => .error Fault.undefined
    | some line =>
      if line.status ≠ INVALID ∧ line.tag = tag then .ok (some i)
      else lru_find_accessed lines start_index tag n (i + 1)

/-- The ageing loop of `lru_cache_access` on the age row of the set: for slots
`i, i+1, ...` (`n` of them), an age greater than `current_age` is decremented. -/
def lru_age_pass (current_age : Nat) : List Nat → Nat → Nat → Except Fault (List Nat)
  | row, 0, _ => .ok row
  | row, n + 1, i =>
    match row[i]? with
    | none => .error Fault.undefined
    | some a =>
      if a > current_age then lru_age_pass current_age (row.set i (a - 1)) n (i + 1)
      else lru_age_pass current_age row n (i + 1)

/-- The function `lru_cache_access`. -/
def lru_cache_access (lru : lru_data) (cs : cache_system) (set_idx tag : Nat) :
    Except Fault lru_data :=
  let start_index := wrap32 (set_idx * cs.associativity)
  match lru_find_accessed cs.cache_lines start_index tag lru.associativity 0 with
  | .error e => .error e
  | .ok none => .ok lru
  | .ok (some i) =>
    let accessed_index := to_int i
    if accessed_index = -1 then .ok lru
    else if accessed_index < 0 then .error Fault.undefined
    else
      match lru.ages[set_idx]? with
      | none => .error Fault.undefined
      | some row =>
        match row[i]? with
        | none => .error Fault.undefined
        | some current_age =>
          match lru_age_pass current_age row lru.associativity 0 with
          | .error e => .error e
          | .ok row1 =>
            .ok { lru with
              ages := lru.ages.set set_idx (row1.set i (sub32 lru.associativity 1)) }

/-- The loop of `lru_eviction_index` on the age row of the set: the first slot
among `i, i+1, ...` (`n` of them) whose age is 0. -/
def lru_find_zero (row : List Nat) : Nat → Nat → Except Fault (Option Nat)
  | 0, _ => .ok none
  | n + 1, i =>
    match row[i]? with
    | none => .error Fault.undefined
    | some a => if a = 0 then .ok (some i) else lru_find_zero row n (i + 1)

/-- The function `lru_eviction_index`; when no slot has age 0 the source calls
`exit(1)`. -/
def lru_eviction_index (lru : lru_data) (_cs : cache_system) (set_idx : Nat) :
    Except Fault Nat :=
  match lru.associativity with
  | 0 => .error (Fault.exit 1)
  | n + 1 =>
    match lru.ages[set_idx]? with
    | none => .error Fault.undefined
    | some row =>
      match lru_find_zero row (n + 1) 0 with
      | .error e => .error e
      | .ok (some i) => .ok i
      | .ok none => .error (Fault.exit 1)

/-- The age table built by both LRU constructors: `sets` rows, row `i` holding
`0, 1, ..., associativity - 1`. -/
def initial_ages (sets associativity : Nat) : List (List Nat) :=
  List.replicate sets (List.range associativity)

/-- The function `lru_replacement_policy_new`. -/
def lru_replacement_policy_new (sets associativity : Nat) :
    replacement_policy lru_data :=
  { cache_access := lru_cache_access
    eviction_index := fun lru cs set_idx =>
      match lru_eviction_index lru cs set_idx with
      | .error e => .error e
      | .ok i => .ok (i, lru)
    data := ⟨initial_ages sets associativity, sets, associativity⟩ }

/-- The function `lru_prefer_clean_cache_access`. -/
def lru_prefer_clean_cache_access (lru : lru_data) (cs : cache_system)
    (set_idx tag : Nat) : Except Fault lru_data :=
  let start_idx := wrap32 (set_idx * cs.associativity)
  match lru_find_accessed cs.cache_lines start_idx tag lru.associativity 0 with
  | .error e => .error e
  | .ok none => .ok lru
  | .ok (some i) =>
    let access_index := to_int i
    if access_index = -1 then .ok lru
    else if access_index < 0 then .error Fault.undefined
    else
      match lru.ages[set_idx]? with
      | none => .error Fault.undefined
      | some row =>
        match row[i]? with
        | none => .error Fault.undefined
        | some current_age =>
          match lru_age_pass current_age row lru.associativity 0 with
          | .error e => .error e
          | .ok row1 =>
            .ok { lru with
              ages := lru.ages.set set_idx (row1.set i (sub32 lru.associativity 1)) }

/-- The first loop of `lru_prefer_clean_eviction_index`: over slots
`i, i+1, ...` (`n` of them), with the running `(oldest_clean_index,
oldest_clean_age)`; an `EXCLUSIVE` line of strictly smaller age replaces it.
`row` is the age row `ages[set_idx]`, `none` when `set_idx` is outside `ages`;
the read `ages[set_idx][i]` is made for `EXCLUSIVE` lines only. -/
def oldest_clean (lines : List cache_line) (row : Option (List Nat)) (set_start : Int) :
    Nat → Nat → Nat × Nat → Except Fault (Nat × Nat)
  | 0, _, acc => .ok acc
  | n + 1, i, acc =>
    match line_at lines (set_start + (i : Int)) with
    | none => .error Fault.undefined
    | some line =>
      if line.status = EXCLUSIVE then
        match row.bind (fun ages => ages[i]?) with
        | none => .error Fault.undefined
        | some a =>
          if a < acc.2 then oldest_clean lines row set_start n (i + 1) (i, a)
          else oldest_clean lines row set_start n (i + 1) acc
      else oldest_clean lines row set_start n (i + 1) acc

/-- The second loop of `lru_prefer_clean_eviction_index`: over slots
`i, i+1, ...` (`n` of them), with the running `(oldest_dirty_index,
oldest_dirty_age)`; a slot of strictly smaller age replaces it.  `row` is the
age row `ages[set_idx]`, `none` when `set_idx` is outside `ages`. -/
def oldest_any (row : Option (List Nat)) :
    Nat → Nat → Nat × Nat → Except Fault (Nat × Nat)
  | 0, _, acc => .ok acc
  | n + 1, i, acc =>
    match row.bind (fun ages => ages[i]?) with
    | none => .error Fault.undefined
    | some a =>
      if a < acc.2 then oldest_any row n (i + 1) (i, a)
      else oldest_any row n (i + 1) acc

/-- The function `lru_prefer_clean_eviction_index`. -/
def lru_prefer_clean_eviction_index (lru_pc : lru_data) (cs : cache_system)
    (set_idx : Nat) : Except Fault Nat :=
  let set_start := set_start_of cs set_idx
  match oldest_clean cs.cache_lines lru_pc.ages[set_idx]? set_start cs.associativity 0
      (UINT32_MAX, UINT32_MAX) with
  | .error e => .error e
  | .ok (oldest_clean_index, _) =>
    if oldest_clean_index ≠ UINT32_MAX then .ok oldest_clean_index
    else
      match oldest_any lru_pc.ages[set_idx]? cs.associativity 0 (0, UINT32_MAX) with
      | .error e => .error e
      | .ok (oldest_dirty_index, _) => .ok oldest_dirty_index

/-- The function `lru_prefer_clean_replacement_policy_new`. -/
def lru_prefer_clean_replacement_policy_new (sets associativity : Nat) :
    replacement_policy lru_data :=
  { cache_access := lru_prefer_clean_cache_access
    eviction_index := fun lru cs set_idx =>
      match lru_prefer_clean_eviction_index lru cs set_idx with
      | .error e => .error e
      | .ok i => .ok (i, lru)
    data := ⟨initial_ages sets associativity, sets, associativity⟩ }

/-! ## The address decode of the specification -/

/-- The offset of the specification: `address & ((1 << offset_bits) - 1)`. -/
def spec_offset (offset_bits address : Nat) : Nat :=
  address &&& ((1 <<< offset_bits) - 1)

/-- The set index of the specification:
`(address >> offset_bits) & ((1 << index_bits) - 1)`. -/
def spec_set_index (offset_bits index_bits address : Nat) : Nat :=
  (address >>> offset_bits) &&& ((1 <<< index_bits) - 1)

/-- The tag of the specification: `address >> (offset_bits + index_bits)`. -/
def spec_tag (offset_bits index_bits address : Nat) : Nat :=
  address >>> (offset_bits + index_bits)

/-! ## Example states, views of a set and loop invariants -/

/-- A cache system with line size 16, 2 sets of 2 lines, and the widths
4 + 1 + 27 with the masks `cache_system_new` derives from them. -/
def geometry_4_1_27 : cache_system :=
  { stats := ⟨0, 0, 0, 0⟩
    line_size := 16
    num_sets := 2
    associativity := 2
    index_bits := 1
    tag_bits := 27
    offset_bits := 4
    cache_lines := List.replicate 4 ⟨0, INVALID⟩
    offset_mask := offset_mask_of 4
    set_index_mask := set_index_mask_of 27 }

/-- A direct-mapped cache system with line size 16 and 2^28 sets: the widths
are 4 + 28 + 0, with the masks `cache_system_new` derives from them.  Its tag
is computed by a shift of 32. -/
def geometry_4_28_0 : cache_system :=
  { stats := ⟨0, 0, 0, 0⟩
    line_size := 16
    num_sets := 268435456
    associativity := 1
    index_bits := 28
    tag_bits := 0
    offset_bits := 4
    cache_lines := List.replicate 268435456 ⟨0, INVALID⟩
    offset_mask := offset_mask_of 4
    set_index_mask := set_index_mask_of 0 }

/-- The one-line cache system `cache_system_new 1 1 1` after its line has been
written, with the counters `st`. -/
def written_once (st : cache_system_stats) : cache_system :=
  { cache_system_new 1 1 1 with stats := st, cache_lines := [⟨0, MODIFIED⟩] }

/-- A cache system with 2 sets of 3 lines; slot 1 of set 1 holds tag 7. -/
def lru_witness_system : cache_system :=
  { stats := ⟨0, 0, 0, 0⟩
    line_size := 1
    num_sets := 2
    associativity := 3
    index_bits := 0
    tag_bits := 0
    offset_bits := 0
    cache_lines := [⟨0, INVALID⟩, ⟨0, INVALID⟩, ⟨0, INVALID⟩,
      ⟨5, EXCLUSIVE⟩, ⟨7, MODIFIED⟩, ⟨9, EXCLUSIVE⟩]
    offset_mask := offset_mask_of 0
    set_index_mask := set_index_mask_of 0 }

/-- The line in slot `k` of set `set_idx`: `cache_lines[set_idx * associativity + k]`. -/
def set_line (cs : cache_system) (set_idx k : Nat) : Option cache_line :=
  cs.cache_lines[set_idx * cs.associativity + k]?

/-- The lines of set `set_idx` lie inside `cache_lines`, at indices an `int`
can hold. -/
def set_allocated (cs : cache_system) (set_idx : Nat) : Prop :=
  set_idx * cs.associativity + cs.associativity ≤ cs.cache_lines.length ∧
  set_idx * cs.associativity + cs.associativity ≤ 2147483648

/-- The state of the first loop of `lru_prefer_clean_eviction_index` after the
slots below `i`: either no `EXCLUSIVE` line of age below `UINT32_MAX` was seen
and the pair is still `(UINT32_MAX, UINT32_MAX)`, or the pair is a slot below
`i` holding an `EXCLUSIVE` line, with its age, which is the least age of the
`EXCLUSIVE` lines below `i`. -/
def clean_scan_inv (lines : List cache_line) (row : List Nat) (base i : Nat)
    (acc : Nat × Nat) : Prop :=
  (acc = (UINT32_MAX, UINT32_MAX) ∧
    ∀ k l a, k < i → lines[base + k]? = some l → l.status = EXCLUSIVE →
      row[k]? = some a → UINT32_MAX ≤ a) ∨
  (acc.1 < i ∧ (∃ l, lines[base + acc.1]? = some l ∧ l.status = EXCLUSIVE) ∧
    row[acc.1]? = some acc.2 ∧ acc.2 < UINT32_MAX ∧
    ∀ k l a, k < i → lines[base + k]? = some l → l.status = EXCLUSIVE →
      row[k]? = some a → acc.2 ≤ a)

/-- A one-set, 2-way cache system whose slot 0 is `MODIFIED` and whose slot 1 is
`EXCLUSIVE`. -/
def dirty_clean_system : cache_system :=
  { stats := ⟨0, 0, 0, 0⟩
    line_size := 1
    num_sets := 1
    associativity := 2
    index_bits := 0
    tag_bits := 0
    offset_bits := 0
    cache_lines := [⟨1, MODIFIED⟩, ⟨2, EXCLUSIVE⟩]
    offset_mask := offset_mask_of 0
    set_index_mask := set_index_mask_of 0 }

/-- The policy `LRU_PREFER_CLEAN` with the policy data `lru_pc`. -/
def prefer_clean_with (lru_pc : lru_data) : replacement_policy lru_data :=
  { lru_prefer_clean_replacement_policy_new lru_pc.sets lru_pc.associativity with
    data := lru_pc }

/-- The policy `LRU` with the policy data `lru`. -/
def lru_with (lru : lru_data) : replacement_policy lru_data :=
  { lru_replacement_policy_new lru.sets lru.associativity with data := lru }

/-- A 2-way set seen through its two lines and its two ages: the cache system
and the LRU data both have associativity 2, set `s` is allocated, its slots 0
and 1 hold the lines `x0` and `x1`, and its age row is `g0, g1`. -/
def two_way_view (cs : cache_system) (lru : lru_data) (s : Nat) (x0 x1 : cache_line)
    (g0 g1 : Nat) : Prop :=
  cs.associativity = 2 ∧ lru.associativity = 2 ∧ set_allocated cs s ∧
  set_line cs s 0 = some x0 ∧ set_line cs s 1 = some x1 ∧
  lru.ages[s]? = some [g0, g1]

/-- The geometry fields of `cs1` are those of `cs`. -/
def same_geometry (cs cs1 : cache_system) : Prop :=
  cs1.line_size = cs.line_size ∧ cs1.num_sets = cs.num_sets ∧
  cs1.associativity = cs.associativity ∧ cs1.index_bits = cs.index_bits ∧
  cs1.tag_bits = cs.tag_bits ∧ cs1.offset_bits = cs.offset_bits ∧
  cs1.offset_mask = cs.offset_mask ∧ cs1.set_index_mask = cs.set_index_mask

/-! ## The RAND policy -/

/-- The state of the C library generator behind `rand()`, which the RAND policy
uses in place of policy data: `values n` is the `int` that call number `n` of
`rand()` returns, `calls` is the number of calls made so far. -/
structure rand_data where
  values : Nat → Nat
  calls : Nat

/-- The function `rand_cache_access`. -/
def rand_cache_access (d : rand_data) (_cs : cache_system) (_set_idx _tag : Nat) :
    Except Fault rand_data :=
  .ok d

/-- The function `rand_eviction_index`: `rand() % associativity`, computed in
`uint32_t`; the remainder by 0 is undefined. -/
def rand_eviction_index (d : rand_data) (cs : cache_system) (_set_idx : Nat) :
    Except Fault (Nat × rand_data) :=
  if cs.associativity = 0 then .error Fault.undefined
  else .ok (d.values d.calls % cs.associativity, { d with calls := d.calls + 1 })

/-- The function `rand_replacement_policy_new`; the values that `rand()` returns
after `srand(time(NULL))` are the parameter `values`. -/
def rand_replacement_policy_new (values : Nat → Nat) (_sets _associativity : Nat) :
    replacement_policy rand_data :=
  { cache_access := rand_cache_access
    eviction_index := rand_eviction_index
    data := ⟨values, 0⟩ }

/-- The policy `RAND` with the generator state `d`. -/
def rand_with (d : rand_data) : replacement_policy rand_data :=
  { rand_replacement_policy_new d.values 0 0 with data := d }

/-! ## Conditions on a set -/

/-- No line of set `set_idx` is `INVALID`. -/
def set_full (cs : cache_system) (set_idx : Nat) : Prop :=
  ∀ k l, k < cs.associativity → set_line cs set_idx k = some l → l.status ≠ INVALID

/-- The slot `e` returned by `eviction_index`, read as the `int evicted_index`,
lies in `[0, associativity)`. -/
def eviction_in_set (cs : cache_system) (e : Nat) : Prop :=
  0 ≤ to_int e ∧ to_int e < (cs.associativity : Int)

/-- The access to `address` finds its set without `INVALID` line, the policy
names a slot inside the set, and the line in that slot is `MODIFIED`. -/
def dirty_eviction_due {σ : Type} (rp : replacement_policy σ) (cs : cache_system)
    (address : Nat) : Prop :=
  set_full cs (decode_set_idx cs address) ∧
  ∃ e d1 ev,
    rp.eviction_index rp.data (count_miss (count_access cs)) (decode_set_idx cs address)
      = .ok (e, d1) ∧
    eviction_in_set cs e ∧
    set_line cs (decode_set_idx cs address) e = some ev ∧ ev.status = MODIFIED

/-- The access to `address` finds its set without `INVALID` line and the policy
names a slot outside the set. -/
def eviction_refused {σ : Type} (rp : replacement_policy σ) (cs : cache_system)
    (address : Nat) : Prop :=
  set_full cs (decode_set_idx cs address) ∧
  ∃ e d1,
    rp.eviction_index rp.data (count_miss (count_access cs)) (decode_set_idx cs address)
      = .ok (e, d1) ∧
    ¬ eviction_in_set cs e

/-- The one-line cache system whose line is `MODIFIED` and whose counter of
dirty evictions is `UINT32_MAX`. -/
def saturated_system : cache_system :=
  written_once ⟨7, 0, 7, 4294967295⟩

/-- A policy whose `eviction_index` names slot 2, given the LRU bookkeeping for
the rest. -/
def slot_two_policy : replacement_policy lru_data :=
  { lru_replacement_policy_new 1 2 with
    eviction_index := fun lru _ _ => .ok (2, lru) }

/-- The system `geometry_4_1_27` after `R 0x00`: slot 0 of set 0 holds tag 0. -/
def half_filled_system : cache_system :=
  { geometry_4_1_27 with
    cache_lines := [⟨0, EXCLUSIVE⟩, ⟨0, INVALID⟩, ⟨0, INVALID⟩, ⟨0, INVALID⟩] }

/-- The state of the second loop of `lru_prefer_clean_eviction_index` after the
slots below `i`: either no age below `UINT32_MAX` was seen and the pair is still
`(0, UINT32_MAX)`, or the pair is a slot below `i` with its age, which is the
least age of the slots below `i`. -/
def any_scan_inv (row : List Nat) (i : Nat) (acc : Nat × Nat) : Prop :=
  (acc = (0, UINT32_MAX) ∧
    ∀ (k : Nat) a, k < i → row[k]? = some a → UINT32_MAX ≤ a) ∨
  (acc.1 < i ∧ row[acc.1]? = some acc.2 ∧ acc.2 < UINT32_MAX ∧
    ∀ (k : Nat) a, k < i → row[k]? = some a → acc.2 ≤ a)

/-- A cache system of associativity 0: one set, no line. -/
def zero_way_system : cache_system :=
  cache_system_new 1 1 0

/-- A one-set, 2-way cache system whose two lines are `MODIFIED`. -/
def all_dirty_system : cache_system :=
  { dirty_clean_system with cache_lines := [⟨1, MODIFIED⟩, ⟨2, MODIFIED⟩] }

/-! # Theorems -/

/-! ## Construction and lookup as the source has them -/

/-- Claim C1, evaluated on the code: after `R 0x00` on the system built by
`cache_system_new 16 2 2` with the LRU policy, set 0 holds tag 0 with status
`EXCLUSIVE`; `cache_system_find_cache_line` still answers `NULL`, and a second
`R 0x00` returns 0 with `hits` unchanged and `misses` increased by 1. -/
theorem resident_line_counted_as_miss :
    ∃ s1 r,
      run_accesses (lru_replacement_policy_new 2 2) (cache_system_new 16 2 2) [] [(0, 'R')]
        = .ok s1 ∧
      line_at s1.cs.cache_lines (set_start_of s1.cs (decode_set_idx s1.cs 0) + 0)
        = some ⟨decode_tag s1.cs 0, EXCLUSIVE⟩ ∧
      cache_system_find_cache_line s1.cs (decode_set_idx s1.cs 0) (decode_tag s1.cs 0)
        = none ∧
      cache_system_mem_access { lru_replacement_policy_new 2 2 with data := s1.data }
        s1.cs 0 'R' = .ok r ∧
      r.ret = 0 ∧ r.cs.stats.hits = s1.cs.stats.hits ∧
      r.cs.stats.misses = s1.cs.stats.misses + 1 :=
  ⟨_, _, rfl, rfl, rfl, rfl, rfl, rfl, rfl⟩

/-- Claim C2, evaluated on the code: on the system built by
`cache_system_new 16 2 2` with `lru_replacement_policy_new 2 2`, the call for
`R 0x00` returns 0 and counts a miss; the call for `R 0x10` decodes set index 16
and reads `cache_lines` outside its 4 lines, so the trace
`R 0x00, R 0x10, W 0x00, R 0x20` has no defined result. -/
theorem end_to_end_trace_leaves_the_array :
    ∃ s1,
      run_accesses (lru_replacement_policy_new 2 2) (cache_system_new 16 2 2) [] [(0, 'R')]
        = .ok s1 ∧
      s1.rets = [0] ∧ s1.cs.stats = ⟨1, 0, 1, 0⟩ ∧ s1.cs.cache_lines.length = 4 ∧
      decode_set_idx s1.cs 16 = 16 ∧
      cache_system_mem_access { lru_replacement_policy_new 2 2 with data := s1.data }
        s1.cs 16 'R' = .error Fault.undefined ∧
      run_accesses (lru_replacement_policy_new 2 2) (cache_system_new 16 2 2) []
        [(0, 'R'), (16, 'R'), (0, 'W'), (32, 'R')] = .error Fault.undefined :=
  ⟨_, rfl, rfl, rfl, rfl, rfl, rfl, rfl⟩

/-- Claim C3, evaluated on the code: `cache_system_new` returns the widths
`offset_bits = 0`, `index_bits = 0`, `tag_bits = 0` for every input, so for
line size 16 and 2 sets they are not 4, 1 and 27. -/
theorem cache_system_new_widths_are_zero (line_size sets associativity : Nat) :
    (cache_system_new line_size sets associativity).offset_bits = 0 ∧
    (cache_system_new line_size sets associativity).index_bits = 0 ∧
    (cache_system_new line_size sets associativity).tag_bits = 0 ∧
    (cache_system_new 16 2 2).offset_bits ≠ 4 ∧
    (cache_system_new 16 2 2).index_bits ≠ 1 ∧
    (cache_system_new 16 2 2).tag_bits ≠ 27 :=
  ⟨rfl, rfl, rfl, by decide, by decide, by decide⟩

/-! ## Address decode -/

theorem shr32_of_lt (x k : Nat) (hk : k < 32) : shr32 x k = x >>> k := by
  unfold shr32
  rw [Nat.mod_eq_of_lt hk]

theorem all_ones_shift (k : Nat) (hk : k ≤ 32) :
    4294967295 >>> k = 2 ^ (32 - k) - 1 := by
  interval_cases k <;> rfl

theorem offset_mask_of_eq (ob : Nat) (h1 : 1 ≤ ob) (h : ob ≤ 32) :
    offset_mask_of ob = 2 ^ ob - 1 := by
  unfold offset_mask_of sub32 shr32
  interval_cases ob <;> rfl

theorem set_index_mask_of_eq (tb : Nat) (h : tb < 32) :
    set_index_mask_of tb = 2 ^ (32 - tb) - 1 := by
  unfold set_index_mask_of
  rw [shr32_of_lt _ _ h]
  exact all_ones_shift tb (by omega)

/-- The decode on widths for which every shift count of the source is below 32:
the offset is `address mod 2^offset_bits`, the set index is
`(address mod 2^(offset_bits + index_bits)) / 2^offset_bits`, the tag is
`address / 2^(offset_bits + index_bits)`. -/
theorem decode_eq (cs : cache_system) (address : Nat)
    (hg : cs.offset_bits + cs.index_bits + cs.tag_bits = 32)
    (hob1 : 1 ≤ cs.offset_bits) (htb1 : 1 ≤ cs.tag_bits)
    (hom : cs.offset_mask = offset_mask_of cs.offset_bits)
    (hsm : cs.set_index_mask = set_index_mask_of cs.tag_bits) :
    decode_offset cs address = address % 2 ^ cs.offset_bits ∧
    decode_set_idx cs address
      = address % 2 ^ (cs.offset_bits + cs.index_bits) / 2 ^ cs.offset_bits ∧
    decode_tag cs address = address / 2 ^ (cs.offset_bits + cs.index_bits) := by
  have hob : cs.offset_bits ≤ 32 := by omega
  have hob2 : cs.offset_bits < 32 := by omega
  have htb : cs.tag_bits < 32 := by omega
  have hsum : 32 - cs.tag_bits = cs.offset_bits + cs.index_bits := by omega
  have hw : wrap32 (cs.offset_bits + cs.index_bits) = cs.offset_bits + cs.index_bits := by
    unfold wrap32; exact Nat.mod_eq_of_lt (by omega)
  refine ⟨?_, ?_, ?_⟩
  · simp only [decode_offset, hom, offset_mask_of_eq _ hob1 hob,
      Nat.and_pow_two_sub_one_eq_mod]
  · simp only [decode_set_idx, hsm, set_index_mask_of_eq _ htb, hsum,
      Nat.and_pow_two_sub_one_eq_mod, shr32_of_lt _ _ hob2, Nat.shiftRight_eq_div_pow]
  · simp only [decode_tag, hw]
    rw [shr32_of_lt _ _ (by omega), Nat.shiftRight_eq_div_pow]

/-- Claim C4 as amended, for widths at which the source shifts by less than 32: when
`offset_bits + index_bits + tag_bits = 32` with `offset_bits ≥ 1` and
`tag_bits ≥ 1`, and the two masks are the ones `cache_system_new` computes from
the widths, the offset, set index and tag computed by `cache_system_mem_access`
are those of the specified decode. -/
theorem decode_matches_spec (cs : cache_system) (address : Nat)
    (hg : cs.offset_bits + cs.index_bits + cs.tag_bits = 32)
    (hob1 : 1 ≤ cs.offset_bits) (htb1 : 1 ≤ cs.tag_bits)
    (hom : cs.offset_mask = offset_mask_of cs.offset_bits)
    (hsm : cs.set_index_mask = set_index_mask_of cs.tag_bits) :
    decode_offset cs address = spec_offset cs.offset_bits address ∧
    decode_set_idx cs address = spec_set_index cs.offset_bits cs.index_bits address ∧
    decode_tag cs address = spec_tag cs.offset_bits cs.index_bits address := by
  obtain ⟨h1, h2, h3⟩ := decode_eq cs address hg hob1 htb1 hom hsm
  refine ⟨?_, ?_, ?_⟩
  · rw [h1]
    simp only [spec_offset, Nat.one_shiftLeft, Nat.and_pow_two_sub_one_eq_mod]
  · rw [h2]
    simp only [spec_set_index, Nat.one_shiftLeft, Nat.and_pow_two_sub_one_eq_mod,
      Nat.shiftRight_eq_div_pow]
    rw [pow_add, Nat.mod_mul_right_div_self]
  · rw [h3]
    simp only [spec_tag, Nat.shiftRight_eq_div_pow]

/-- Witness of `decode_matches_spec`: the geometry 4 + 1 + 27 at address `0x35`. -/
theorem decode_matches_spec_witness :
    decode_offset geometry_4_1_27 53 = spec_offset 4 53 ∧
    decode_set_idx geometry_4_1_27 53 = spec_set_index 4 1 53 ∧
    decode_tag geometry_4_1_27 53 = spec_tag 4 1 53 :=
  decode_matches_spec geometry_4_1_27 53 rfl (by decide) (by decide) rfl rfl

/-- Claim C4 as stated fails on the widths 4 + 28 + 0, which satisfy
`tag_bits = 32 - offset_bits - index_bits` with the derived masks: the source
computes the tag of address `0x35` by `address >> 32`, a shift C leaves
undefined, and obtains `0x35` where the specified tag is 0. -/
theorem decode_differs_when_shift_reaches_32 :
    geometry_4_28_0.offset_bits + geometry_4_28_0.index_bits + geometry_4_28_0.tag_bits
      = 32 ∧
    geometry_4_28_0.offset_mask = offset_mask_of geometry_4_28_0.offset_bits ∧
    geometry_4_28_0.set_index_mask = set_index_mask_of geometry_4_28_0.tag_bits ∧
    wrap32 (geometry_4_28_0.offset_bits + geometry_4_28_0.index_bits) = 32 ∧
    decode_tag geometry_4_28_0 53 = 53 ∧
    spec_tag geometry_4_28_0.offset_bits geometry_4_28_0.index_bits 53 = 0 ∧
    ¬ (decode_offset geometry_4_28_0 53 = spec_offset geometry_4_28_0.offset_bits 53 ∧
       decode_set_idx geometry_4_28_0 53
         = spec_set_index geometry_4_28_0.offset_bits geometry_4_28_0.index_bits 53 ∧
       decode_tag geometry_4_28_0 53
         = spec_tag geometry_4_28_0.offset_bits geometry_4_28_0.index_bits 53) :=
  ⟨rfl, rfl, rfl, rfl, rfl, rfl, fun h => absurd h.2.2 (by decide)⟩

theorem notify_policy_ok {σ : Type} (rp : replacement_policy σ) (cs : cache_system)
    (data : σ) (set_idx tag : Nat) (r : access_result σ)
    (h : notify_policy rp cs data set_idx tag = .ok r) :
    r.ret = 0 ∧ r.cs = cs ∧ rp.cache_access data cs set_idx tag = .ok r.data := by
  unfold notify_policy at h
  split at h
  · cases h
  · next d hd => cases h; exact ⟨rfl, rfl, hd⟩

/-- What a returning miss does to the counters. -/
theorem mem_access_miss_stats {σ : Type} (rp : replacement_policy σ) (cs : cache_system)
    (set_idx tag : Nat) (rw : Char) (r : access_result σ)
    (h : mem_access_miss rp cs set_idx tag rw = .ok r) :
    r.cs.stats.accesses = cs.stats.accesses ∧
    r.cs.stats.hits = cs.stats.hits ∧
    r.cs.stats.misses = wrap32 (cs.stats.misses + 1) ∧
    (r.cs.stats.dirty_evictions = cs.stats.dirty_evictions ∨
      r.cs.stats.dirty_evictions = wrap32 (cs.stats.dirty_evictions + 1)) := by
  unfold mem_access_miss at h
  simp only at h
  split at h
  · cases h
  · obtain ⟨-, hcs, -⟩ := notify_policy_ok _ _ _ _ _ _ h
    rw [hcs]
    simp [store_line, count_miss]
  · split at h
    · cases h
    · split at h
      · cases h
        simp [count_miss]
      · split at h
        · cases h
        · obtain ⟨-, hcs, -⟩ := notify_policy_ok _ _ _ _ _ _ h
          rw [hcs]
          split <;> simp [store_line, count_miss, count_dirty_eviction]

theorem mem_access_stats {σ : Type} (rp : replacement_policy σ) (cs : cache_system)
    (address : Nat) (rw : Char) (r : access_result σ)
    (h : cache_system_mem_access rp cs address rw = .ok r) :
    r.cs.stats.accesses = wrap32 (cs.stats.accesses + 1) ∧
    r.cs.stats.hits = cs.stats.hits ∧
    r.cs.stats.misses = wrap32 (cs.stats.misses + 1) ∧
    (r.cs.stats.dirty_evictions = cs.stats.dirty_evictions ∨
      r.cs.stats.dirty_evictions = wrap32 (cs.stats.dirty_evictions + 1)) := by
  unfold cache_system_mem_access cache_system_find_cache_line at h
  simp only at h
  have := mem_access_miss_stats _ _ _ _ _ _ h
  simpa [count_access] using this


/-- Induction along a run: a step-indexed property of the cache system that
every returning call advances holds at the end of every returning run. -/
theorem run_accesses_induct {σ : Type} (Inv : Nat → cache_system → Prop)
    (hstep : ∀ (rp : replacement_policy σ) (cs : cache_system) (address : Nat) (rw : Char)
      (r : access_result σ) (k : Nat), Inv k cs →
      cache_system_mem_access rp cs address rw = .ok r → Inv (k + 1) r.cs)
    (trace : List (Nat × Char)) :
    ∀ (rp : replacement_policy σ) (cs : cache_system) (rets : List Int)
      (final : sim_state σ) (k : Nat), Inv k cs →
      run_accesses rp cs rets trace = .ok final → Inv (k + trace.length) final.cs := by
  induction trace with
  | nil =>
    intro rp cs rets final k hk h
    simp only [run_accesses] at h
    cases h
    simpa using hk
  | cons x rest ih =>
    intro rp cs rets final k hk h
    obtain ⟨address, rw⟩ := x
    simp only [run_accesses] at h
    split at h
    · cases h
    · next r hr =>
      have h1 := hstep rp cs address rw r k hk hr
      have h2 := ih _ _ _ _ _ h1 h
      have e : k + (rest.length + 1) = k + 1 + rest.length := by omega
      simpa [e] using h2

theorem wrap32_le (n : Nat) : wrap32 n ≤ n := Nat.mod_le _ _

/-- Claim C6: from a freshly constructed cache system, after any sequence of
calls of `cache_system_mem_access` with any replacement policy, whatever the
calls return, `hits + misses = accesses`. -/
theorem counter_conservation {σ : Type} (rp : replacement_policy σ)
    (line_size sets associativity : Nat) (trace : List (Nat × Char)) (final : sim_state σ)
    (h : run_accesses rp (cache_system_new line_size sets associativity) [] trace
      = .ok final) :
    final.cs.stats.hits + final.cs.stats.misses = final.cs.stats.accesses := by
  have key := run_accesses_induct (σ := σ)
    (fun _ cs => cs.stats.hits = 0 ∧ cs.stats.misses = cs.stats.accesses)
    (by
      intro rp cs address rw r k hk hr
      obtain ⟨ha, hh, hm, -⟩ := mem_access_stats rp cs address rw r hr
      exact ⟨by rw [hh, hk.1], by rw [hm, ha, hk.2]⟩)
    trace rp (cache_system_new line_size sets associativity) [] final 0
    ⟨rfl, rfl⟩ h
  simp only at key
  omega

/-- Witness of `counter_conservation`: three accesses to the one-line cache. -/
theorem counter_conservation_witness :
    run_accesses (lru_replacement_policy_new 1 1) (cache_system_new 1 1 1) []
        [(0, 'R'), (0, 'W'), (0, 'R')]
      = .ok ⟨{ cache_system_new 1 1 1 with
                stats := ⟨3, 0, 3, 1⟩, cache_lines := [⟨0, EXCLUSIVE⟩] },
              ⟨[[0]], 1, 1⟩, [0, 0, 0]⟩ ∧
    (0 : Nat) + 3 = 3 :=
  ⟨rfl, counter_conservation (lru_replacement_policy_new 1 1) 1 1 1
    [(0, 'R'), (0, 'W'), (0, 'R')] _ rfl⟩

/-- Claim C7 as amended: from a freshly constructed cache system, after any
sequence of fewer than 2^32 calls of `cache_system_mem_access` with any
replacement policy, `dirty_evictions ≤ misses`. -/
theorem dirty_evictions_le_misses_short {σ : Type} (rp : replacement_policy σ)
    (line_size sets associativity : Nat) (trace : List (Nat × Char)) (final : sim_state σ)
    (hlen : trace.length < 4294967296)
    (h : run_accesses rp (cache_system_new line_size sets associativity) [] trace
      = .ok final) :
    final.cs.stats.dirty_evictions ≤ final.cs.stats.misses := by
  have key := run_accesses_induct (σ := σ)
    (fun k cs => (k < 4294967296 → cs.stats.misses = k) ∧ cs.stats.dirty_evictions ≤ k)
    (by
      intro rp cs address rw r k hk hr
      obtain ⟨-, -, hm, hd⟩ := mem_access_stats rp cs address rw r hr
      refine ⟨fun hlt => ?_, ?_⟩
      · rw [hm, hk.1 (by omega)]
        exact Nat.mod_eq_of_lt hlt
      · have := wrap32_le (cs.stats.dirty_evictions + 1)
        have := hk.2
        omega)
    trace rp (cache_system_new line_size sets associativity) [] final 0
    ⟨fun _ => rfl, Nat.le_refl _⟩ h
  simp only [Nat.zero_add] at key
  have := key.1 hlen
  omega


/-- Witness of `dirty_evictions_le_misses_short`: three accesses to the one-line
cache, the last of which evicts a dirty line. -/
theorem dirty_evictions_le_misses_short_witness :
    [((0 : Nat), 'R'), (0, 'W'), (0, 'R')].length < 4294967296 ∧
    run_accesses (lru_replacement_policy_new 1 1) (cache_system_new 1 1 1) []
        [(0, 'R'), (0, 'W'), (0, 'R')]
      = .ok ⟨{ cache_system_new 1 1 1 with
                stats := ⟨3, 0, 3, 1⟩, cache_lines := [⟨0, EXCLUSIVE⟩] },
              ⟨[[0]], 1, 1⟩, [0, 0, 0]⟩ ∧
    (1 : Nat) ≤ 3 :=
  ⟨by decide, rfl, dirty_evictions_le_misses_short (lru_replacement_policy_new 1 1) 1 1 1
    [(0, 'R'), (0, 'W'), (0, 'R')] _ (by decide) rfl⟩

theorem write_step (st : cache_system_stats) :
    cache_system_mem_access (lru_replacement_policy_new 1 1) (written_once st) 0 'W'
    = .ok ⟨0, written_once ⟨wrap32 (st.accesses + 1), st.hits, wrap32 (st.misses + 1),
        wrap32 (st.dirty_evictions + 1)⟩, ⟨[[0]], 1, 1⟩⟩ := by
  obtain ⟨a, h, m, d⟩ := st
  simp [cache_system_mem_access, cache_system_find_cache_line, mem_access_miss,
    written_once, cache_system_new, count_access, count_miss, decode_set_idx, decode_tag,
    set_index_mask_of, offset_mask_of, shr32, set_start_of, first_invalid, line_at, to_int, wrap32,
    lru_replacement_policy_new, lru_eviction_index, lru_find_zero, notify_policy, store_line,
    count_dirty_eviction, install_status, lru_cache_access, lru_find_accessed, lru_age_pass,
    sub32, initial_ages]
  rfl

theorem run_accesses_cons {σ : Type} (rp : replacement_policy σ) (cs : cache_system)
    (rets : List Int) (address : Nat) (rw : Char) (rest : List (Nat × Char))
    (r : access_result σ) (h : cache_system_mem_access rp cs address rw = .ok r) :
    run_accesses rp cs rets ((address, rw) :: rest)
      = run_accesses { rp with data := r.data } r.cs (rets ++ [r.ret]) rest := by
  simp only [run_accesses, h]

theorem write_run (n : Nat) :
    ∀ (st : cache_system_stats) (rets : List Int),
      ∃ rets1, run_accesses (lru_replacement_policy_new 1 1) (written_once st) rets
          (List.replicate (n + 1) (0, 'W'))
        = .ok ⟨written_once ⟨(st.accesses + (n + 1)) % 4294967296, st.hits,
            (st.misses + (n + 1)) % 4294967296,
            (st.dirty_evictions + (n + 1)) % 4294967296⟩,
          ⟨[[0]], 1, 1⟩, rets1⟩ := by
  induction n with
  | zero =>
    intro st rets
    refine ⟨rets ++ [0], ?_⟩
    rw [List.replicate_succ,
      run_accesses_cons _ _ _ _ _ _ _ (write_step st)]
    rfl
  | succ n ih =>
    intro st rets
    rw [List.replicate_succ,
      run_accesses_cons _ _ _ _ _ _ _ (write_step st)]
    obtain ⟨rets1, h1⟩ := ih ⟨wrap32 (st.accesses + 1), st.hits, wrap32 (st.misses + 1),
      wrap32 (st.dirty_evictions + 1)⟩ (rets ++ [0])
    refine ⟨rets1, Eq.trans h1 ?_⟩
    have e1 : ∀ x : Nat, (wrap32 (x + 1) + (n + 1)) % 4294967296
        = (x + (n + 1 + 1)) % 4294967296 := by
      intro x; unfold wrap32; omega
    simp only [e1]

/-- Claim C7 as stated fails: after 2^32 writes to address 0 on the system built
by `cache_system_new 1 1 1` with the LRU policy, the 32-bit counters hold
`misses = 0` and `dirty_evictions = 2^32 - 1`. -/
theorem dirty_evictions_exceed_misses :
    ∃ final, run_accesses (lru_replacement_policy_new 1 1) (cache_system_new 1 1 1) []
        (List.replicate 4294967296 (0, 'W')) = .ok final ∧
      final.cs.stats.misses = 0 ∧ final.cs.stats.dirty_evictions = 4294967295 ∧
      ¬ (final.cs.stats.dirty_evictions ≤ final.cs.stats.misses) := by
  have e0 : (4294967296 : Nat) = 4294967294 + 1 + 1 := rfl
  have first : cache_system_mem_access (lru_replacement_policy_new 1 1)
      (cache_system_new 1 1 1) 0 'W'
      = .ok ⟨0, written_once ⟨1, 0, 1, 0⟩, ⟨[[0]], 1, 1⟩⟩ := rfl
  have e : ({ lru_replacement_policy_new 1 1 with data := ⟨[[0]], 1, 1⟩ } :
      replacement_policy lru_data) = lru_replacement_policy_new 1 1 := rfl
  obtain ⟨rets1, h1⟩ := write_run 4294967294 ⟨1, 0, 1, 0⟩ ([] ++ [0])
  refine ⟨⟨written_once ⟨0, 0, 0, 4294967295⟩, ⟨[[0]], 1, 1⟩, rets1⟩, ?_, ?_⟩
  · rw [e0, List.replicate_succ, run_accesses_cons _ _ _ _ _ _ _ first]
    exact h1
  · refine ⟨rfl, rfl, ?_⟩
    simp [written_once]

/-! ## LRU ages -/

/-- The age map of one `lru_cache_access`: ages above `cur` move down by one. -/
theorem lru_age_pass_spec (cur : Nat) (n : Nat) :
    ∀ (row : List Nat) (i : Nat), i + n ≤ row.length →
      ∃ row1, lru_age_pass cur row n i = .ok row1 ∧ row1.length = row.length ∧
        ∀ j, row1[j]? = if i ≤ j ∧ j < i + n then
            (row[j]?).map (fun a => if a > cur then a - 1 else a)
          else row[j]? := by
  induction n with
  | zero =>
    intro row i _
    refine ⟨row, rfl, rfl, fun j => ?_⟩
    have : ¬ (i ≤ j ∧ j < i + 0) := by omega
    rw [if_neg this]
  | succ n ih =>
    intro row i hi
    have hlt : i < row.length := by omega
    have hget : row[i]? = some row[i] := List.getElem?_eq_getElem hlt
    unfold lru_age_pass
    rw [hget]
    simp only
    by_cases ha : row[i] > cur
    · rw [if_pos ha]
      obtain ⟨row1, h1, h2, h3⟩ := ih (row.set i (row[i] - 1)) (i + 1)
        (by simp only [List.length_set]; omega)
      refine ⟨row1, h1, by simpa using h2, fun j => ?_⟩
      rw [h3 j, List.getElem?_set]
      by_cases hj : i = j
      · subst hj
        have c1 : ¬ (i + 1 ≤ i ∧ i < i + 1 + n) := by omega
        have c2 : i ≤ i ∧ i < i + (n + 1) := by omega
        simp [c1, c2, hlt, hget, ha]
      · by_cases c1 : i + 1 ≤ j ∧ j < i + 1 + n
        · have c2 : i ≤ j ∧ j < i + (n + 1) := by omega
          simp [c1, c2, hj]
        · have c2 : ¬ (i ≤ j ∧ j < i + (n + 1)) := by omega
          simp [c1, c2, hj]
    · rw [if_neg ha]
      obtain ⟨row1, h1, h2, h3⟩ := ih row (i + 1) (by omega)
      refine ⟨row1, h1, h2, fun j => ?_⟩
      rw [h3 j]
      by_cases hj : i = j
      · subst hj
        have c1 : ¬ (i + 1 ≤ i ∧ i < i + 1 + n) := by omega
        have c2 : i ≤ i ∧ i < i + (n + 1) := by omega
        simp [c1, c2, hget, ha]
      · by_cases c1 : i + 1 ≤ j ∧ j < i + 1 + n
        · have c2 : i ≤ j ∧ j < i + (n + 1) := by omega
          simp [c1, c2]
        · have c2 : ¬ (i ≤ j ∧ j < i + (n + 1)) := by omega
          simp [c1, c2]

/-- Moving one age of `0, ..., n-1` to the top and closing the gap is a
permutation of `0, ..., n-1`. -/
theorem refresh_range_perm (n cur : Nat) (hcur : cur < n) :
    ((List.range n).map
      (fun a => if a = cur then n - 1 else if a > cur then a - 1 else a)).Perm
      (List.range n) := by
  apply List.Subperm.perm_of_length_le
  · apply List.subperm_of_subset
    · apply List.Nodup.map_on _ (List.nodup_range n)
      intro x hx y hy hxy
      simp only [List.mem_range] at hx hy
      simp only at hxy
      split_ifs at hxy <;> omega
    · intro x hx
      simp only [List.mem_map, List.mem_range] at hx
      obtain ⟨a, ha, rfl⟩ := hx
      simp only [List.mem_range]
      split_ifs <;> omega
  · simp

theorem refreshed_row_perm (n i cur : Nat) (row row1 : List Nat)
    (hperm : row.Perm (List.range n)) (hi : row[i]? = some cur)
    (hlen : row1.length = row.length)
    (h1 : ∀ j : Nat, row1[j]? = (row[j]?).map (fun a => if a > cur then a - 1 else a)) :
    (row1.set i (n - 1)).Perm (List.range n) := by
  have hnodup : row.Nodup := (hperm.nodup_iff).2 (List.nodup_range n)
  have hcur : cur < n := by
    have : cur ∈ row := List.getElem?_mem hi
    simpa using (hperm.mem_iff).1 this
  have hilt : i < row.length := by
    rcases Nat.lt_or_ge i row.length with h | h
    · exact h
    · rw [List.getElem?_eq_none h] at hi; cases hi
  have hmap : row1.set i (n - 1)
      = row.map (fun a => if a = cur then n - 1 else if a > cur then a - 1 else a) := by
    apply List.ext_getElem?
    intro j
    rw [List.getElem?_set, List.getElem?_map, h1 j]
    by_cases hj : i = j
    · subst hj
      simp [hi, hlen, hilt]
    · rw [if_neg hj]
      rcases hrow : row[j]? with _ | a
      · rfl
      · have hjlt : j < row.length := by
          rcases Nat.lt_or_ge j row.length with h | h
          · exact h
          · rw [List.getElem?_eq_none h] at hrow; cases hrow
        have hne : a ≠ cur := by
          intro hEq
          subst hEq
          have e1 : row[i] = row[j] := by
            have a1 : row[i]? = some row[i] := List.getElem?_eq_getElem hilt
            have a2 : row[j]? = some row[j] := List.getElem?_eq_getElem hjlt
            rw [a1] at hi; rw [a2] at hrow
            exact (Option.some.inj hi).trans (Option.some.inj hrow).symm
          exact hj ((hnodup.getElem_inj_iff).1 e1)
        simp [hne]
  rw [hmap]
  exact (hperm.map _).trans (refresh_range_perm n cur hcur)

theorem lru_find_accessed_bound (lines : List cache_line) (start tag : Nat) (n : Nat) :
    ∀ (i k : Nat), lru_find_accessed lines start tag n i = .ok (some k) →
      i ≤ k ∧ k < i + n := by
  induction n with
  | zero =>
    intro i k h
    simp [lru_find_accessed] at h
  | succ n ih =>
    intro i k h
    unfold lru_find_accessed at h
    split at h
    · cases h
    · split at h
      · cases h
        omega
      · have := ih _ _ h
        omega

/-- The search loop of `lru_cache_access` on a set whose lines are allocated:
it returns the lowest slot that is not `INVALID` and holds the tag, or `none`
when the set has no such slot. -/
theorem lru_find_accessed_spec (lines : List cache_line) (start tag : Nat) (n : Nat) :
    ∀ (i : Nat), (∀ k, i ≤ k → k < i + n → wrap32 (start + k) < lines.length) →
      (∃ k, lru_find_accessed lines start tag n i = .ok (some k) ∧ i ≤ k ∧ k < i + n ∧
        (∃ line, lines[wrap32 (start + k)]? = some line ∧
          line.status ≠ INVALID ∧ line.tag = tag) ∧
        ∀ k1, i ≤ k1 → k1 < k → ∀ line, lines[wrap32 (start + k1)]? = some line →
          ¬ (line.status ≠ INVALID ∧ line.tag = tag)) ∨
      (lru_find_accessed lines start tag n i = .ok none ∧
        ∀ k1, i ≤ k1 → k1 < i + n → ∀ line, lines[wrap32 (start + k1)]? = some line →
          ¬ (line.status ≠ INVALID ∧ line.tag = tag)) := by
  induction n with
  | zero =>
    intro i _
    right
    exact ⟨rfl, fun k1 h1 h2 => by omega⟩
  | succ n ih =>
    intro i hb
    have hlt := hb i (Nat.le_refl _) (by omega)
    have hget : lines[wrap32 (start + i)]? = some lines[wrap32 (start + i)] :=
      List.getElem?_eq_getElem hlt
    unfold lru_find_accessed
    rw [hget]
    simp only
    by_cases hm : lines[wrap32 (start + i)].status ≠ INVALID ∧
        lines[wrap32 (start + i)].tag = tag
    · rw [if_pos hm]
      left
      exact ⟨i, rfl, Nat.le_refl _, by omega, ⟨_, hget, hm⟩, fun k1 h1 h2 => by omega⟩
    · rw [if_neg hm]
      have hskip : ∀ k1, k1 = i → ∀ line, lines[wrap32 (start + k1)]? = some line →
          ¬ (line.status ≠ INVALID ∧ line.tag = tag) := by
        intro k1 hk line hl
        subst hk
        rw [hget] at hl
        cases hl
        exact hm
      rcases ih (i + 1) (fun k h1 h2 => hb k (by omega) (by omega)) with
        ⟨k, h1, h2, h3, h4, h5⟩ | ⟨h1, h2⟩
      · left
        refine ⟨k, h1, by omega, by omega, h4, fun k1 a1 a2 => ?_⟩
        by_cases hk : k1 = i
        · exact hskip k1 hk
        · exact h5 k1 (by omega) a2
      · right
        refine ⟨h1, fun k1 a1 a2 => ?_⟩
        by_cases hk : k1 = i
        · exact hskip k1 hk
        · exact h2 k1 (by omega) (by omega)

theorem sub32_one (n : Nat) (h0 : 0 < n) (h : n ≤ 4294967296) : sub32 n 1 = n - 1 := by
  unfold sub32
  omega

theorem to_int_of_lt (u : Nat) (h : u < 2147483648) : to_int u = (u : Int) := by
  unfold to_int
  rw [if_pos h]

/-- One `lru_cache_access` keeps the age row of the set a permutation of
`0, ..., associativity - 1`. -/
theorem lru_cache_access_perm (lru : lru_data) (cs : cache_system) (set_idx tag : Nat)
    (row : List Nat) (hlt : lru.associativity < 4294967296)
    (hrow : lru.ages[set_idx]? = some row)
    (hperm : row.Perm (List.range lru.associativity))
    (lru1 : lru_data) (h : lru_cache_access lru cs set_idx tag = .ok lru1) :
    lru1.associativity = lru.associativity ∧
    ∃ row1, lru1.ages[set_idx]? = some row1 ∧
      row1.Perm (List.range lru.associativity) := by
  have hlen : row.length = lru.associativity := by simpa using hperm.length_eq
  unfold lru_cache_access at h
  simp only at h
  split at h
  · cases h
  · cases h
    exact ⟨rfl, row, hrow, hperm⟩
  · next i hfind =>
    split at h
    · cases h
      exact ⟨rfl, row, hrow, hperm⟩
    · split at h
      · cases h
      · rw [hrow] at h
        simp only at h
        split at h
        · cases h
        · next cur hcur =>
          obtain ⟨row1, hp1, hp2, hp3⟩ := lru_age_pass_spec cur lru.associativity row 0
            (by omega)
          rw [hp1] at h
          simp only at h
          cases h
          have hb := lru_find_accessed_bound _ _ _ _ _ _ hfind
          refine ⟨rfl, row1.set i (sub32 lru.associativity 1), ?_, ?_⟩
          · simp only
            apply List.getElem?_set_self
            rcases Nat.lt_or_ge set_idx lru.ages.length with h | h
            · exact h
            · rw [List.getElem?_eq_none h] at hrow; cases hrow
          · rw [sub32_one _ (by omega) (by omega)]
            apply refreshed_row_perm _ _ cur row row1 hperm hcur hp2
            intro j
            rw [hp3 j]
            by_cases hj : j < lru.associativity
            · rw [if_pos ⟨Nat.zero_le _, by omega⟩]
            · rw [if_neg (by omega)]
              rw [List.getElem?_eq_none (by omega)]
              rfl

theorem lru_cache_access_of_none (lru : lru_data) (cs : cache_system) (set_idx tag : Nat)
    (hfind : lru_find_accessed cs.cache_lines (wrap32 (set_idx * cs.associativity)) tag
      lru.associativity 0 = .ok none) :
    lru_cache_access lru cs set_idx tag = .ok lru := by
  unfold lru_cache_access
  simp only [hfind]

/-- The result of `lru_cache_access` when the search loop finds slot `i`: the
ages of the set above the age of slot `i` move down by one and slot `i` gets
`associativity - 1`. -/
theorem lru_cache_access_of_some (lru : lru_data) (cs : cache_system) (set_idx tag : Nat)
    (row : List Nat) (i cur : Nat)
    (hfind : lru_find_accessed cs.cache_lines (wrap32 (set_idx * cs.associativity)) tag
      lru.associativity 0 = .ok (some i))
    (hi : i < 2147483648) (hrow : lru.ages[set_idx]? = some row)
    (hcur : row[i]? = some cur) (hlen : lru.associativity ≤ row.length) :
    ∃ row1 : List Nat, lru_cache_access lru cs set_idx tag
        = .ok { lru with
            ages := lru.ages.set set_idx (row1.set i (sub32 lru.associativity 1)) } ∧
      row1.length = row.length ∧
      ∀ j : Nat, row1[j]? = if j < lru.associativity then
          (row[j]?).map (fun a => if a > cur then a - 1 else a)
        else row[j]? := by
  obtain ⟨row1, hp1, hp2, hp3⟩ := lru_age_pass_spec cur lru.associativity row 0 (by omega)
  refine ⟨row1, ?_, hp2, fun j => ?_⟩
  · unfold lru_cache_access
    have h1 : ¬ (to_int i = -1) := by rw [to_int_of_lt i hi]; omega
    have h2 : ¬ (to_int i < 0) := by rw [to_int_of_lt i hi]; omega
    simp only [hfind, hrow, hcur, hp1, if_neg h1, if_neg h2]
  · rw [hp3 j]
    by_cases hj : j < lru.associativity
    · rw [if_pos ⟨Nat.zero_le _, by omega⟩, if_pos hj]
    · rw [if_neg (by omega), if_neg hj]

/-- The call `lru_cache_access` returns when the lines of the set are allocated
and the age row of the set has `associativity` entries. -/
theorem lru_cache_access_returns (lru : lru_data) (cs : cache_system) (set_idx tag : Nat)
    (row : List Nat) (hrow : lru.ages[set_idx]? = some row)
    (hlen : lru.associativity ≤ row.length)
    (hlines : ∀ k, k < lru.associativity →
      wrap32 (wrap32 (set_idx * cs.associativity) + k) < cs.cache_lines.length)
    (hsmall : lru.associativity ≤ 2147483648) :
    ∃ lru1, lru_cache_access lru cs set_idx tag = .ok lru1 := by
  rcases lru_find_accessed_spec cs.cache_lines (wrap32 (set_idx * cs.associativity)) tag
      lru.associativity 0 (fun k _ h2 => hlines k (by omega)) with
    ⟨k, h1, _, h3, _, _⟩ | ⟨h1, _⟩
  · have hk : k < row.length := by omega
    obtain ⟨row1, h, _, _⟩ := lru_cache_access_of_some lru cs set_idx tag row k row[k] h1
      (by omega) hrow (List.getElem?_eq_getElem hk) hlen
    exact ⟨_, h⟩
  · exact ⟨lru, lru_cache_access_of_none lru cs set_idx tag h1⟩

theorem lru_prefer_clean_cache_access_eq (lru : lru_data) (cs : cache_system)
    (set_idx tag : Nat) :
    lru_prefer_clean_cache_access lru cs set_idx tag = lru_cache_access lru cs set_idx tag :=
  rfl

theorem initial_ages_row (sets associativity s : Nat) (hs : s < sets) :
    (initial_ages sets associativity)[s]? = some (List.range associativity) := by
  unfold initial_ages
  rw [List.getElem?_replicate, if_pos hs]

/-- Claim C8: both LRU constructors give every set the age row
`0, 1, ..., associativity - 1`; a call of `lru_cache_access` or of
`lru_prefer_clean_cache_access` on a set whose age row is a permutation of
`0, ..., associativity - 1` leaves it one, for every set index, tag and cache
lines; and the call returns when the lines of the set are allocated. -/
theorem lru_ages_stay_permutation (sets associativity s : Nat) (hs : s < sets)
    (lru : lru_data) (cs : cache_system) (set_idx tag : Nat) (row : List Nat)
    (hlt : lru.associativity < 4294967296)
    (hrow : lru.ages[set_idx]? = some row)
    (hperm : row.Perm (List.range lru.associativity)) :
    (lru_replacement_policy_new sets associativity).data.ages[s]?
      = some (List.range associativity) ∧
    (lru_prefer_clean_replacement_policy_new sets associativity).data.ages[s]?
      = some (List.range associativity) ∧
    (∀ lru1, lru_cache_access lru cs set_idx tag = .ok lru1 →
      ∃ row1, lru1.ages[set_idx]? = some row1 ∧
        row1.Perm (List.range lru.associativity)) ∧
    (∀ lru1, lru_prefer_clean_cache_access lru cs set_idx tag = .ok lru1 →
      ∃ row1, lru1.ages[set_idx]? = some row1 ∧
        row1.Perm (List.range lru.associativity)) ∧
    ((∀ k, k < lru.associativity →
        wrap32 (wrap32 (set_idx * cs.associativity) + k) < cs.cache_lines.length) →
      lru.associativity ≤ 2147483648 →
      (∃ lru1, lru_cache_access lru cs set_idx tag = .ok lru1) ∧
      (∃ lru1, lru_prefer_clean_cache_access lru cs set_idx tag = .ok lru1)) := by
  have hlen : row.length = lru.associativity := by simpa using hperm.length_eq
  refine ⟨initial_ages_row sets associativity s hs, initial_ages_row sets associativity s hs,
    fun lru1 h => (lru_cache_access_perm lru cs set_idx tag row hlt hrow hperm lru1 h).2,
    fun lru1 h => (lru_cache_access_perm lru cs set_idx tag row hlt hrow hperm lru1
      ((lru_prefer_clean_cache_access_eq lru cs set_idx tag).symm.trans h)).2,
    fun hlines hsmall => ?_⟩
  have hret := lru_cache_access_returns lru cs set_idx tag row hrow (by omega) hlines hsmall
  exact ⟨hret, by rw [lru_prefer_clean_cache_access_eq]; exact hret⟩

/-- Witness of `lru_ages_stay_permutation`: the second set of a 2-set, 3-way
cache whose slot 1 holds tag 7; the ages `2, 0, 1` become `1, 2, 0`. -/
theorem lru_ages_stay_permutation_witness :
    (1 : Nat) < 2 ∧ (3 : Nat) < 4294967296 ∧
    (⟨[[0, 1, 2], [2, 0, 1]], 2, 3⟩ : lru_data).ages[1]? = some [2, 0, 1] ∧
    [2, 0, 1].Perm (List.range 3) ∧
    lru_cache_access ⟨[[0, 1, 2], [2, 0, 1]], 2, 3⟩ lru_witness_system 1 7
      = .ok ⟨[[0, 1, 2], [1, 2, 0]], 2, 3⟩ ∧
    ∃ row1, (⟨[[0, 1, 2], [1, 2, 0]], 2, 3⟩ : lru_data).ages[1]? = some row1 ∧
      row1.Perm (List.range 3) :=
  ⟨by decide, by decide, rfl, by decide, rfl,
    (lru_ages_stay_permutation 2 3 1 (by decide) ⟨[[0, 1, 2], [2, 0, 1]], 2, 3⟩
      lru_witness_system 1 7 [2, 0, 1] (by decide) rfl (by decide)).2.2.1 _ rfl⟩

/-! ## Steps of `cache_system_mem_access` -/

theorem line_at_nat (lines : List cache_line) (base k : Nat) :
    line_at lines ((base : Int) + (k : Int)) = lines[base + k]? := by
  unfold line_at
  have h : (0 : Int) ≤ (base : Int) + (k : Int) := by omega
  rw [if_pos h]
  have e : ((base : Int) + (k : Int)).toNat = base + k := by omega
  rw [e]

theorem set_start_of_eq (cs : cache_system) (set_idx : Nat)
    (h : set_idx * cs.associativity < 2147483648) :
    set_start_of cs set_idx = ((set_idx * cs.associativity : Nat) : Int) := by
  unfold set_start_of wrap32
  rw [Nat.mod_eq_of_lt (by omega), to_int_of_lt _ h]

/-- The open-slot loop of `cache_system_mem_access` on allocated lines: it
returns the lowest `INVALID` slot, or `none` when no slot is `INVALID`. -/
theorem first_invalid_spec (lines : List cache_line) (base : Nat) (n : Nat) :
    ∀ (i : Nat), base + i + n ≤ lines.length →
      (∃ k l, first_invalid lines (base : Int) n i = .ok (some k) ∧ i ≤ k ∧ k < i + n ∧
        lines[base + k]? = some l ∧ l.status = INVALID ∧
        ∀ k1 l1, i ≤ k1 → k1 < k → lines[base + k1]? = some l1 → l1.status ≠ INVALID) ∨
      (first_invalid lines (base : Int) n i = .ok none ∧
        ∀ k1 l1, i ≤ k1 → k1 < i + n → lines[base + k1]? = some l1 →
          l1.status ≠ INVALID) := by
  induction n with
  | zero =>
    intro i _
    right
    exact ⟨rfl, fun k1 l1 h1 h2 => by omega⟩
  | succ n ih =>
    intro i hb
    have hlt : base + i < lines.length := by omega
    have hget : lines[base + i]? = some lines[base + i] := List.getElem?_eq_getElem hlt
    unfold first_invalid
    rw [line_at_nat, hget]
    simp only
    by_cases hm : lines[base + i].status = INVALID
    · rw [if_pos hm]
      left
      exact ⟨i, _, rfl, Nat.le_refl _, by omega, hget, hm, fun k1 l1 h1 h2 => by omega⟩
    · rw [if_neg hm]
      have hskip : ∀ k1 l1, k1 = i → lines[base + k1]? = some l1 → l1.status ≠ INVALID := by
        intro k1 l1 hk hl
        subst hk
        rw [hget] at hl
        cases hl
        exact hm
      rcases ih (i + 1) (by omega) with ⟨k, l, h1, h2, h3, h4, h5, h6⟩ | ⟨h1, h2⟩
      · left
        refine ⟨k, l, h1, by omega, by omega, h4, h5, fun k1 l1 a1 a2 => ?_⟩
        by_cases hk : k1 = i
        · exact hskip k1 l1 hk
        · exact h6 k1 l1 (by omega) a2
      · right
        refine ⟨h1, fun k1 l1 a1 a2 => ?_⟩
        by_cases hk : k1 = i
        · exact hskip k1 l1 hk
        · exact h2 k1 l1 (by omega) (by omega)

/-- A miss that finds the open slot `i`: the line is stored there and the
policy is told. -/
theorem mem_access_install {σ : Type} (rp : replacement_policy σ) (cs : cache_system)
    (address : Nat) (rw : Char) (i : Nat) (data1 : σ)
    (hfree : first_invalid cs.cache_lines (set_start_of cs (decode_set_idx cs address))
      cs.associativity 0 = .ok (some i))
    (hpol : rp.cache_access rp.data
      (store_line (count_miss (count_access cs))
        (set_start_of cs (decode_set_idx cs address) + (i : Int))
        ⟨decode_tag cs address, install_status rw⟩)
      (decode_set_idx cs address) (decode_tag cs address) = .ok data1) :
    cache_system_mem_access rp cs address rw
      = .ok ⟨0, store_line (count_miss (count_access cs))
          (set_start_of cs (decode_set_idx cs address) + (i : Int))
          ⟨decode_tag cs address, install_status rw⟩, data1⟩ := by
  unfold cache_system_mem_access cache_system_find_cache_line mem_access_miss
  have e1 : (count_miss (count_access cs)).cache_lines = cs.cache_lines := rfl
  have e2 : (count_miss (count_access cs)).associativity = cs.associativity := rfl
  have e3 : decode_set_idx (count_access cs) address = decode_set_idx cs address := rfl
  have e4 : decode_tag (count_access cs) address = decode_tag cs address := rfl
  have e5 : ∀ s, set_start_of (count_miss (count_access cs)) s = set_start_of cs s :=
    fun _ => rfl
  simp only [e1, e2, e3, e4, e5, hfree, notify_policy, hpol]

/-- A miss in a set without open slot, for which the policy names the slot `e`
inside the set: the line is stored there, a dirty eviction is counted when the
line it replaces is `MODIFIED`, and the policy is told. -/
theorem mem_access_evict {σ : Type} (rp : replacement_policy σ) (cs : cache_system)
    (address : Nat) (rw : Char) (e : Nat) (data1 data2 : σ) (evicted : cache_line)
    (hfull : first_invalid cs.cache_lines (set_start_of cs (decode_set_idx cs address))
      cs.associativity 0 = .ok none)
    (hev : rp.eviction_index rp.data (count_miss (count_access cs))
      (decode_set_idx cs address) = .ok (e, data1))
    (he1 : e < 2147483648) (he2 : e < cs.associativity)
    (hline : line_at cs.cache_lines
      (set_start_of cs (decode_set_idx cs address) + (e : Int)) = some evicted)
    (hpol : rp.cache_access data1
      (store_line
        (if evicted.status = MODIFIED then
          count_dirty_eviction (count_miss (count_access cs))
        else count_miss (count_access cs))
        (set_start_of cs (decode_set_idx cs address) + (e : Int))
        ⟨decode_tag cs address, install_status rw⟩)
      (decode_set_idx cs address) (decode_tag cs address) = .ok data2) :
    cache_system_mem_access rp cs address rw
      = .ok ⟨0, store_line
          (if evicted.status = MODIFIED then
            count_dirty_eviction (count_miss (count_access cs))
          else count_miss (count_access cs))
          (set_start_of cs (decode_set_idx cs address) + (e : Int))
          ⟨decode_tag cs address, install_status rw⟩, data2⟩ := by
  unfold cache_system_mem_access cache_system_find_cache_line mem_access_miss
  have e1 : (count_miss (count_access cs)).cache_lines = cs.cache_lines := rfl
  have e2 : (count_miss (count_access cs)).associativity = cs.associativity := rfl
  have e3 : decode_set_idx (count_access cs) address = decode_set_idx cs address := rfl
  have e4 : decode_tag (count_access cs) address = decode_tag cs address := rfl
  have e5 : ∀ s, set_start_of (count_miss (count_access cs)) s = set_start_of cs s :=
    fun _ => rfl
  have c : ¬ ((e : Int) < 0 ∨ cs.associativity ≤ e) := by omega
  simp only [e1, e2, e3, e4, e5, hfull, hev, to_int_of_lt e he1, if_neg c, hline,
    notify_policy, hpol]

/-! ## `lru_prefer_clean_eviction_index` -/

theorem oldest_clean_spec (lines : List cache_line) (row : List Nat) (base N : Nat)
    (hlines : base + N ≤ lines.length) (hrow : N ≤ row.length) (n : Nat) :
    ∀ (i : Nat) (acc : Nat × Nat), i + n = N → clean_scan_inv lines row base i acc →
      ∃ acc1, oldest_clean lines (some row) (base : Int) n i acc = .ok acc1 ∧
        clean_scan_inv lines row base N acc1 := by
  induction n with
  | zero =>
    intro i acc hi hinv
    have : i = N := by omega
    subst this
    exact ⟨acc, rfl, hinv⟩
  | succ n ih =>
    intro i acc hi hinv
    have hlt : base + i < lines.length := by omega
    have hget : lines[base + i]? = some lines[base + i] := List.getElem?_eq_getElem hlt
    have hrlt : i < row.length := by omega
    have hrget : row[i]? = some row[i] := List.getElem?_eq_getElem hrlt
    unfold oldest_clean
    rw [line_at_nat, hget]
    simp only
    by_cases hx : lines[base + i].status = EXCLUSIVE
    · rw [if_pos hx]
      simp only [Option.bind, hrget]
      by_cases ha : row[i] < acc.2
      · rw [if_pos ha]
        apply ih (i + 1) (i, row[i]) (by omega)
        right
        have hamax : row[i] < UINT32_MAX := by
          rcases hinv with ⟨h1, _⟩ | ⟨_, _, _, h4, _⟩
          · rw [h1] at ha; exact ha
          · exact Nat.lt_trans ha h4
        refine ⟨by simp, ⟨_, hget, hx⟩, hrget, hamax, fun k l a hk hl hs hr => ?_⟩
        by_cases hki : k = i
        · subst hki
          rw [hrget] at hr
          have := Option.some.inj hr
          simp only
          omega
        · simp only
          rcases hinv with ⟨h1, h2⟩ | ⟨_, _, _, _, h5⟩
          · have := h2 k l a (by omega) hl hs hr
            omega
          · have := h5 k l a (by omega) hl hs hr
            omega
      · rw [if_neg ha]
        apply ih (i + 1) acc (by omega)
        rcases hinv with ⟨h1, h2⟩ | ⟨g1, g2, g3, g4, g5⟩
        · left
          refine ⟨h1, fun k l a hk hl hs hr => ?_⟩
          by_cases hki : k = i
          · subst hki
            rw [hrget] at hr
            have := Option.some.inj hr
            rw [h1] at ha
            simp only at ha
            omega
          · exact h2 k l a (by omega) hl hs hr
        · right
          refine ⟨by omega, g2, g3, g4, fun k l a hk hl hs hr => ?_⟩
          by_cases hki : k = i
          · subst hki
            rw [hrget] at hr
            have := Option.some.inj hr
            omega
          · exact g5 k l a (by omega) hl hs hr
    · rw [if_neg hx]
      apply ih (i + 1) acc (by omega)
      have hskip : ∀ l, lines[base + i]? = some l → l.status = EXCLUSIVE → False := by
        intro l hl hs
        rw [hget] at hl
        cases hl
        exact hx hs
      rcases hinv with ⟨h1, h2⟩ | ⟨g1, g2, g3, g4, g5⟩
      · left
        refine ⟨h1, fun k l a hk hl hs hr => ?_⟩
        by_cases hki : k = i
        · subst hki
          exact (hskip l hl hs).elim
        · exact h2 k l a (by omega) hl hs hr
      · right
        refine ⟨by omega, g2, g3, g4, fun k l a hk hl hs hr => ?_⟩
        by_cases hki : k = i
        · subst hki
          exact (hskip l hl hs).elim
        · exact g5 k l a (by omega) hl hs hr

/-- On an allocated set that holds an `EXCLUSIVE` line of age below
`UINT32_MAX`, `lru_prefer_clean_eviction_index` returns a slot of the set whose
line is `EXCLUSIVE` and whose age is the least among the `EXCLUSIVE` lines. -/
theorem prefer_clean_eviction_index_clean (lru_pc : lru_data) (cs : cache_system)
    (set_idx : Nat) (row : List Nat) (j : Nat) (lj : cache_line) (aj : Nat)
    (halloc : set_allocated cs set_idx)
    (hrow : lru_pc.ages[set_idx]? = some row) (hlen : cs.associativity ≤ row.length)
    (hj : j < cs.associativity) (hlj : set_line cs set_idx j = some lj)
    (hsj : lj.status = EXCLUSIVE) (haj : row[j]? = some aj) (hmax : aj < UINT32_MAX) :
    ∃ i li ai, lru_prefer_clean_eviction_index lru_pc cs set_idx = .ok i ∧
      i < cs.associativity ∧ set_line cs set_idx i = some li ∧ li.status = EXCLUSIVE ∧
      row[i]? = some ai ∧
      ∀ k l a, k < cs.associativity → set_line cs set_idx k = some l →
        l.status = EXCLUSIVE → row[k]? = some a → ai ≤ a := by
  obtain ⟨hb1, hb2⟩ := halloc
  have hstart := set_start_of_eq cs set_idx (by omega)
  obtain ⟨acc1, h1, hinv⟩ := oldest_clean_spec cs.cache_lines row
    (set_idx * cs.associativity) cs.associativity hb1 hlen cs.associativity 0
    (UINT32_MAX, UINT32_MAX) (by omega) (Or.inl ⟨rfl, fun k l a hk => by omega⟩)
  rcases hinv with ⟨_, h3⟩ | ⟨g1, ⟨li, g2, g2s⟩, g3, g4, g5⟩
  · have := h3 j lj aj hj hlj hsj haj
    omega
  · refine ⟨acc1.1, li, acc1.2, ?_, g1, g2, g2s, g3, g5⟩
    unfold lru_prefer_clean_eviction_index
    simp only [hstart, hrow, h1]
    have hne : acc1.1 ≠ UINT32_MAX := by unfold UINT32_MAX; omega
    rw [if_pos hne]

theorem store_line_stats (cs : cache_system) (k : Int) (l : cache_line) :
    (store_line cs k l).stats = cs.stats := rfl

theorem set_line_store_self (cs : cache_system) (set_idx k : Nat) (l : cache_line)
    (h : set_idx * cs.associativity + k < cs.cache_lines.length) :
    set_line (store_line cs (((set_idx * cs.associativity : Nat) : Int) + (k : Int)) l)
      set_idx k = some l := by
  unfold set_line store_line
  have e : (((set_idx * cs.associativity : Nat) : Int) + (k : Int)).toNat
      = set_idx * cs.associativity + k := by omega
  simp only [e]
  exact List.getElem?_set_self h

theorem set_line_store_other (cs : cache_system) (set_idx k k1 : Nat) (l : cache_line)
    (h : k ≠ k1) :
    set_line (store_line cs (((set_idx * cs.associativity : Nat) : Int) + (k : Int)) l)
      set_idx k1 = set_line cs set_idx k1 := by
  unfold set_line store_line
  have e : (((set_idx * cs.associativity : Nat) : Int) + (k : Int)).toNat
      = set_idx * cs.associativity + k := by omega
  simp only [e]
  exact List.getElem?_set_ne (by omega)

/-- On an allocated set that holds an `EXCLUSIVE` line of age below
`UINT32_MAX`, `lru_prefer_clean_eviction_index` returns a slot in
`[0, associativity)` whose line is `EXCLUSIVE` and whose age is the least among
the `EXCLUSIVE` lines, whatever the ages of the other lines; and when the set is
2-way and its other line is `MODIFIED`, a call of `cache_system_mem_access` for
that set returns 0, replaces the `EXCLUSIVE` line, keeps the `MODIFIED` line and
leaves `dirty_evictions` unchanged. -/
theorem prefer_clean_miss_of_age_bound (lru_pc : lru_data) (cs : cache_system)
    (set_idx : Nat) (row : List Nat) (j : Nat) (lj : cache_line) (aj : Nat)
    (halloc : set_allocated cs set_idx)
    (hrow : lru_pc.ages[set_idx]? = some row) (hlen : cs.associativity ≤ row.length)
    (hj : j < cs.associativity) (hlj : set_line cs set_idx j = some lj)
    (hsj : lj.status = EXCLUSIVE) (haj : row[j]? = some aj) (hmax : aj < UINT32_MAX) :
    (∃ i li ai, lru_prefer_clean_eviction_index lru_pc cs set_idx = .ok i ∧
      i < cs.associativity ∧ set_line cs set_idx i = some li ∧ li.status = EXCLUSIVE ∧
      row[i]? = some ai ∧
      ∀ k l a, k < cs.associativity → set_line cs set_idx k = some l →
        l.status = EXCLUSIVE → row[k]? = some a → ai ≤ a) ∧
    (∀ (address : Nat) (rw : Char) (lm : cache_line),
      cs.associativity = 2 → lru_pc.associativity = 2 →
      decode_set_idx cs address = set_idx →
      set_line cs set_idx (1 - j) = some lm → lm.status = MODIFIED →
      ∃ r, cache_system_mem_access (prefer_clean_with lru_pc) cs address rw = .ok r ∧
        r.ret = 0 ∧
        r.cs.stats.dirty_evictions = cs.stats.dirty_evictions ∧
        set_line r.cs set_idx j = some ⟨decode_tag cs address, install_status rw⟩ ∧
        set_line r.cs set_idx (1 - j) = some lm) := by
  have part1 := prefer_clean_eviction_index_clean lru_pc cs set_idx row j lj aj halloc hrow
    hlen hj hlj hsj haj hmax
  refine ⟨part1, ?_⟩
  intro address rw lm hassoc hlassoc hset hlm hsm
  obtain ⟨hb1, hb2⟩ := halloc
  have hstart := set_start_of_eq cs set_idx (by omega)
  rw [hassoc] at hj
  -- the lines of the set, by slot
  have hslot : ∀ k l, k < 2 → set_line cs set_idx k = some l →
      (k = j ∧ l = lj) ∨ (k = 1 - j ∧ l = lm) := by
    intro k l hk hl
    by_cases hkj : k = j
    · subst hkj
      rw [hlj] at hl
      exact Or.inl ⟨rfl, (Option.some.inj hl).symm⟩
    · have hk1 : k = 1 - j := by omega
      subst hk1
      rw [hlm] at hl
      exact Or.inr ⟨rfl, (Option.some.inj hl).symm⟩
  -- no open slot
  have hfull : first_invalid cs.cache_lines (set_start_of cs (decode_set_idx cs address))
      cs.associativity 0 = .ok none := by
    rw [hset, hstart]
    rcases first_invalid_spec cs.cache_lines (set_idx * cs.associativity) cs.associativity 0
        (by omega) with ⟨k, l, _, _, h3, h4, h5, _⟩ | ⟨h1, _⟩
    · rw [hassoc] at h3
      rcases hslot k l (by omega) h4 with ⟨_, h⟩ | ⟨_, h⟩
      · rw [h, hsj] at h5; cases h5
      · rw [h, hsm] at h5; cases h5
    · exact h1
  -- the policy names slot j
  obtain ⟨i, li, ai, hev, hi, hli, hsi, _, _⟩ := part1
  rw [hassoc] at hi
  have hij : i = j := by
    rcases hslot i li hi hli with ⟨h, _⟩ | ⟨_, h⟩
    · exact h
    · rw [h, hsm] at hsi; cases hsi
  subst hij
  have hev1 : (prefer_clean_with lru_pc).eviction_index (prefer_clean_with lru_pc).data
      (count_miss (count_access cs)) (decode_set_idx cs address) = .ok (i, lru_pc) := by
    have h : lru_prefer_clean_eviction_index lru_pc (count_miss (count_access cs)) set_idx
        = .ok i := hev
    simp only [prefer_clean_with, lru_prefer_clean_replacement_policy_new, hset, h]
  have hline : line_at cs.cache_lines
      (set_start_of cs (decode_set_idx cs address) + (i : Int)) = some lj := by
    rw [hset, hstart, line_at_nat]
    exact hlj
  have hclean : ¬ (lj.status = MODIFIED) := by rw [hsj]; decide
  -- the policy update returns
  obtain ⟨data2, hpol⟩ := lru_cache_access_returns lru_pc
    (store_line (count_miss (count_access cs))
      (set_start_of cs (decode_set_idx cs address) + (i : Int))
      ⟨decode_tag cs address, install_status rw⟩)
    (decode_set_idx cs address) (decode_tag cs address) row (by rw [hset]; exact hrow)
    (by omega)
    (by
      intro k hk
      have e1 : (store_line (count_miss (count_access cs))
          (set_start_of cs (decode_set_idx cs address) + (i : Int))
          ⟨decode_tag cs address, install_status rw⟩).cache_lines.length
          = cs.cache_lines.length := by
        simp [store_line, count_miss, count_access]
      have e2 : (store_line (count_miss (count_access cs))
          (set_start_of cs (decode_set_idx cs address) + (i : Int))
          ⟨decode_tag cs address, install_status rw⟩).associativity
          = cs.associativity := rfl
      rw [e1, e2, hset]
      unfold wrap32
      omega)
    (by omega)
  have hstep := mem_access_evict (prefer_clean_with lru_pc) cs address rw i lru_pc data2 lj
    hfull hev1 (by omega) (by omega) hline
    (by rw [if_neg hclean]; exact hpol)
  refine ⟨_, hstep, rfl, ?_, ?_, ?_⟩
  · simp only [if_neg hclean, store_line_stats]
    rfl
  · simp only [if_neg hclean, hset, hstart]
    exact set_line_store_self (count_miss (count_access cs)) set_idx i _ (by
      show set_idx * cs.associativity + i < cs.cache_lines.length
      omega)
  · simp only [if_neg hclean, hset, hstart]
    exact (set_line_store_other (count_miss (count_access cs)) set_idx i (1 - i) _
      (by omega)).trans hlm

/-- Claim C10: on an allocated set whose ages are a permutation of
`0 .. associativity - 1` (what `lru_prefer_clean_replacement_policy_new` sets up
and `lru_prefer_clean_cache_access` keeps) and which holds an `EXCLUSIVE` line,
`lru_prefer_clean_eviction_index` returns a slot in `[0, associativity)` whose
line is `EXCLUSIVE` and whose age is the least among the `EXCLUSIVE` lines,
whatever the ages of the `MODIFIED` lines; and when the set is 2-way and its
other line is `MODIFIED`, a call of `cache_system_mem_access` for that set
returns 0, replaces the `EXCLUSIVE` line, keeps the `MODIFIED` line and leaves
`dirty_evictions` unchanged. -/
theorem prefer_clean_evicts_clean_line (lru_pc : lru_data) (cs : cache_system)
    (set_idx : Nat) (row : List Nat) (j : Nat) (lj : cache_line)
    (halloc : set_allocated cs set_idx)
    (hrow : lru_pc.ages[set_idx]? = some row)
    (hperm : row.Perm (List.range cs.associativity))
    (hj : j < cs.associativity) (hlj : set_line cs set_idx j = some lj)
    (hsj : lj.status = EXCLUSIVE) :
    (∃ i li ai, lru_prefer_clean_eviction_index lru_pc cs set_idx = .ok i ∧
      i < cs.associativity ∧ set_line cs set_idx i = some li ∧ li.status = EXCLUSIVE ∧
      row[i]? = some ai ∧
      ∀ k l a, k < cs.associativity → set_line cs set_idx k = some l →
        l.status = EXCLUSIVE → row[k]? = some a → ai ≤ a) ∧
    (∀ (address : Nat) (rw : Char) (lm : cache_line),
      cs.associativity = 2 → lru_pc.associativity = 2 →
      decode_set_idx cs address = set_idx →
      set_line cs set_idx (1 - j) = some lm → lm.status = MODIFIED →
      ∃ r, cache_system_mem_access (prefer_clean_with lru_pc) cs address rw = .ok r ∧
        r.ret = 0 ∧
        r.cs.stats.dirty_evictions = cs.stats.dirty_evictions ∧
        set_line r.cs set_idx j = some ⟨decode_tag cs address, install_status rw⟩ ∧
        set_line r.cs set_idx (1 - j) = some lm) := by
  have hlen : row.length = cs.associativity := by
    rw [hperm.length_eq, List.length_range]
  have hjl : j < row.length := by omega
  have haj : row[j]? = some row[j] := List.getElem?_eq_getElem hjl
  have hmem : row[j] ∈ List.range cs.associativity :=
    hperm.mem_iff.1 (List.getElem_mem hjl)
  have hlt : row[j] < cs.associativity := List.mem_range.1 hmem
  have hmax : row[j] < UINT32_MAX := by
    have := halloc.2
    unfold UINT32_MAX
    omega
  exact prefer_clean_miss_of_age_bound lru_pc cs set_idx row j lj row[j] halloc hrow
    (by omega) hj hlj hsj haj hmax

/-- Witness of `prefer_clean_evicts_clean_line`: slot 0 is `MODIFIED` with age 0,
slot 1 is `EXCLUSIVE` with age 1 (the more recently used line); the read of
address 0 replaces slot 1 and counts no dirty eviction. -/
theorem prefer_clean_evicts_clean_line_witness :
    set_allocated dirty_clean_system 0 ∧
    (⟨[[0, 1]], 1, 2⟩ : lru_data).ages[0]? = some [0, 1] ∧
    [0, 1].Perm (List.range dirty_clean_system.associativity) ∧
    1 < dirty_clean_system.associativity ∧
    set_line dirty_clean_system 0 1 = some ⟨2, EXCLUSIVE⟩ ∧
    set_line dirty_clean_system 0 0 = some ⟨1, MODIFIED⟩ ∧
    lru_prefer_clean_eviction_index ⟨[[0, 1]], 1, 2⟩ dirty_clean_system 0 = .ok 1 ∧
    ∃ r, cache_system_mem_access (prefer_clean_with ⟨[[0, 1]], 1, 2⟩) dirty_clean_system
        0 'R' = .ok r ∧
      r.ret = 0 ∧ r.cs.stats.dirty_evictions = 0 ∧
      set_line r.cs 0 1 = some ⟨0, EXCLUSIVE⟩ ∧
      set_line r.cs 0 0 = some ⟨1, MODIFIED⟩ :=
  ⟨⟨by decide, by decide⟩, rfl, List.Perm.refl _, by decide, rfl, rfl, rfl,
    (prefer_clean_evicts_clean_line ⟨[[0, 1]], 1, 2⟩ dirty_clean_system 0 [0, 1] 1
      ⟨2, EXCLUSIVE⟩ ⟨by decide, by decide⟩ rfl (List.Perm.refl _) (by decide) rfl
      rfl).2 0 'R' ⟨1, MODIFIED⟩ rfl rfl rfl rfl rfl⟩

/-! ## A 2-way set under LRU -/

theorem first_invalid_two_way (cs : cache_system) (s : Nat) (x0 x1 : cache_line)
    (hc : cs.associativity = 2) (halloc : set_allocated cs s)
    (h0 : set_line cs s 0 = some x0) (h1 : set_line cs s 1 = some x1) :
    first_invalid cs.cache_lines (set_start_of cs s) cs.associativity 0
      = .ok (if x0.status = INVALID then some 0
          else if x1.status = INVALID then some 1 else none) := by
  obtain ⟨hb1, hb2⟩ := halloc
  rw [set_start_of_eq cs s (by omega), hc]
  unfold set_line at h0 h1
  rw [hc] at h0 h1
  have e0 : line_at cs.cache_lines (((s * 2 : Nat) : Int) + ((0 : Nat) : Int)) = some x0 := by
    rw [line_at_nat]; exact h0
  have e1 : line_at cs.cache_lines (((s * 2 : Nat) : Int) + ((0 + 1 : Nat) : Int))
      = some x1 := by
    rw [line_at_nat]; exact h1
  simp only [first_invalid, e0, e1]
  split_ifs <;> rfl

theorem lru_eviction_index_two_way (cs : cache_system) (lru : lru_data) (s g0 g1 : Nat)
    (hl : lru.associativity = 2) (hages : lru.ages[s]? = some [g0, g1]) :
    lru_eviction_index lru cs s
      = if g0 = 0 then .ok 0 else if g1 = 0 then .ok 1 else .error (Fault.exit 1) := by
  unfold lru_eviction_index
  rw [hl]
  simp only [hages, lru_find_zero, List.getElem?_cons_zero, List.getElem?_cons_succ]
  split_ifs <;> rfl

theorem lru_cache_access_two_way (cs : cache_system) (lru : lru_data) (s t : Nat)
    (x0 x1 : cache_line) (g0 g1 : Nat)
    (hc : cs.associativity = 2) (hl : lru.associativity = 2) (halloc : set_allocated cs s)
    (h0 : set_line cs s 0 = some x0) (h1 : set_line cs s 1 = some x1)
    (hages : lru.ages[s]? = some [g0, g1]) :
    lru_cache_access lru cs s t
      = .ok (if x0.status ≠ INVALID ∧ x0.tag = t then
            { lru with ages := lru.ages.set s [1, if g1 > g0 then g1 - 1 else g1] }
          else if x1.status ≠ INVALID ∧ x1.tag = t then
            { lru with ages := lru.ages.set s [if g0 > g1 then g0 - 1 else g0, 1] }
          else lru) := by
  obtain ⟨hb1, hb2⟩ := halloc
  unfold set_line at h0 h1
  rw [hc] at h0 h1 hb1 hb2
  have w0 : wrap32 (wrap32 (s * 2) + 0) = s * 2 + 0 := by unfold wrap32; omega
  have w1 : wrap32 (wrap32 (s * 2) + (0 + 1)) = s * 2 + 1 := by unfold wrap32; omega
  unfold lru_cache_access
  rw [hc, hl]
  simp only [lru_find_accessed, w0, w1, h0, h1]
  have z0 : ¬ (to_int 0 = -1) := by decide
  have z0n : ¬ (to_int 0 < 0) := by decide
  have z1 : ¬ (to_int (0 + 1) = -1) := by decide
  have z1n : ¬ (to_int (0 + 1) < 0) := by decide
  have s2 : sub32 2 1 = 1 := rfl
  by_cases c0 : x0.status ≠ INVALID ∧ x0.tag = t
  · simp only [if_pos c0, if_neg z0, if_neg z0n, hages, List.getElem?_cons_zero,
      lru_age_pass, List.getElem?_cons_succ, s2]
    have irr : ¬ (g0 > g0) := by omega
    rw [if_neg irr]
    by_cases c : g1 > g0
    · simp only [if_pos c]; rfl
    · simp only [if_neg c]; rfl
  · by_cases c1 : x1.status ≠ INVALID ∧ x1.tag = t
    · simp only [if_neg c0, if_pos c1, if_neg z1, if_neg z1n, hages,
        List.getElem?_cons_zero, lru_age_pass, List.getElem?_cons_succ, s2]
      have irr : ¬ (g1 > g1) := by omega
      by_cases c : g0 > g1
      · simp only [if_pos c, List.set_cons_zero, List.getElem?_cons_succ,
          List.getElem?_cons_zero, if_neg irr]; rfl
      · simp only [if_neg c, List.getElem?_cons_succ, List.getElem?_cons_zero, if_neg irr]
        rfl
    · simp only [if_neg c0, if_neg c1]

theorem install_status_ne_invalid (rw : Char) : install_status rw ≠ INVALID := by
  unfold install_status
  split_ifs <;> decide

theorem decode_same_geometry (cs cs1 : cache_system) (h : same_geometry cs cs1)
    (address : Nat) :
    decode_set_idx cs1 address = decode_set_idx cs address ∧
    decode_tag cs1 address = decode_tag cs address := by
  obtain ⟨_, _, _, h4, _, h6, _, h8⟩ := h
  unfold decode_set_idx decode_tag
  rw [h4, h6, h8]
  exact ⟨rfl, rfl⟩

theorem same_geometry_trans (cs cs1 cs2 : cache_system) (h1 : same_geometry cs cs1)
    (h2 : same_geometry cs1 cs2) : same_geometry cs cs2 := by
  obtain ⟨a1, a2, a3, a4, a5, a6, a7, a8⟩ := h1
  obtain ⟨b1, b2, b3, b4, b5, b6, b7, b8⟩ := h2
  exact ⟨b1.trans a1, b2.trans a2, b3.trans a3, b4.trans a4, b5.trans a5, b6.trans a6,
    b7.trans a7, b8.trans a8⟩

theorem lru_with_data (lru d : lru_data) :
    ({ lru_with lru with data := d } : replacement_policy lru_data) = lru_with d := rfl

/-- After a store of a valid line `v` in slot 0 of a 2-way set, `lru_cache_access`
for the tag of `v` makes slot 0 the most recent. -/
theorem lru_after_store_slot0 (cs X : cache_system) (lru : lru_data) (s : Nat)
    (x0 x1 : cache_line) (g0 g1 : Nat) (v : cache_line)
    (hv : two_way_view cs lru s x0 x1 g0 g1)
    (hX1 : X.cache_lines = cs.cache_lines) (hX2 : X.associativity = cs.associativity)
    (hvs : v.status ≠ INVALID) :
    ∃ lru1, lru_cache_access lru (store_line X (set_start_of cs s + ((0 : Nat) : Int)) v)
        s v.tag = .ok lru1 ∧
      two_way_view (store_line X (set_start_of cs s + ((0 : Nat) : Int)) v) lru1 s v x1 1
        (if g1 > g0 then g1 - 1 else g1) := by
  obtain ⟨hc, hl, halloc, h0, h1, hages⟩ := hv
  have hstart := set_start_of_eq cs s (by have := halloc.2; omega)
  rw [hstart, ← hX2]
  have hlen : X.cache_lines.length = cs.cache_lines.length := by rw [hX1]
  have hallocX : set_allocated
      (store_line X (((s * X.associativity : Nat) : Int) + ((0 : Nat) : Int)) v) s := by
    unfold set_allocated store_line
    simp only [List.length_set, hlen, hX2]
    exact halloc
  have g0' : set_line (store_line X (((s * X.associativity : Nat) : Int) + ((0 : Nat) : Int)) v)
      s 0 = some v :=
    set_line_store_self X s 0 v (by rw [hlen, hX2]; have := halloc.1; omega)
  have g1' : set_line (store_line X (((s * X.associativity : Nat) : Int) + ((0 : Nat) : Int)) v)
      s 1 = some x1 := by
    rw [set_line_store_other X s 0 1 v (by omega)]
    unfold set_line
    rw [hX1, hX2]
    exact h1
  have hslt : s < lru.ages.length := by
    rcases Nat.lt_or_ge s lru.ages.length with h | h
    · exact h
    · rw [List.getElem?_eq_none h] at hages; cases hages
  refine ⟨_, lru_cache_access_two_way _ lru s v.tag v x1 g0 g1 (hX2.trans hc) hl hallocX
    g0' g1' hages, ?_⟩
  rw [if_pos ⟨hvs, rfl⟩]
  exact ⟨hX2.trans hc, hl, hallocX, g0', g1', List.getElem?_set_self hslt⟩

/-- After a store of a valid line `v` in slot 1 of a 2-way set whose slot 0 does
not hold the tag of `v`, `lru_cache_access` for that tag makes slot 1 the most
recent. -/
theorem lru_after_store_slot1 (cs X : cache_system) (lru : lru_data) (s : Nat)
    (x0 x1 : cache_line) (g0 g1 : Nat) (v : cache_line)
    (hv : two_way_view cs lru s x0 x1 g0 g1)
    (hX1 : X.cache_lines = cs.cache_lines) (hX2 : X.associativity = cs.associativity)
    (hvs : v.status ≠ INVALID) (hx0 : ¬ (x0.status ≠ INVALID ∧ x0.tag = v.tag)) :
    ∃ lru1, lru_cache_access lru (store_line X (set_start_of cs s + ((1 : Nat) : Int)) v)
        s v.tag = .ok lru1 ∧
      two_way_view (store_line X (set_start_of cs s + ((1 : Nat) : Int)) v) lru1 s x0 v
        (if g0 > g1 then g0 - 1 else g0) 1 := by
  obtain ⟨hc, hl, halloc, h0, h1, hages⟩ := hv
  have hstart := set_start_of_eq cs s (by have := halloc.2; omega)
  rw [hstart, ← hX2]
  have hlen : X.cache_lines.length = cs.cache_lines.length := by rw [hX1]
  have hallocX : set_allocated
      (store_line X (((s * X.associativity : Nat) : Int) + ((1 : Nat) : Int)) v) s := by
    unfold set_allocated store_line
    simp only [List.length_set, hlen, hX2]
    exact halloc
  have g1' : set_line (store_line X (((s * X.associativity : Nat) : Int) + ((1 : Nat) : Int)) v)
      s 1 = some v :=
    set_line_store_self X s 1 v (by rw [hlen, hX2]; have := halloc.1; omega)
  have g0' : set_line (store_line X (((s * X.associativity : Nat) : Int) + ((1 : Nat) : Int)) v)
      s 0 = some x0 := by
    rw [set_line_store_other X s 1 0 v (by omega)]
    unfold set_line
    rw [hX1, hX2]
    exact h0
  have hslt : s < lru.ages.length := by
    rcases Nat.lt_or_ge s lru.ages.length with h | h
    · exact h
    · rw [List.getElem?_eq_none h] at hages; cases hages
  refine ⟨_, lru_cache_access_two_way _ lru s v.tag x0 v g0 g1 (hX2.trans hc) hl hallocX
    g0' g1' hages, ?_⟩
  rw [if_neg hx0, if_pos ⟨hvs, rfl⟩]
  exact ⟨hX2.trans hc, hl, hallocX, g0', g1', List.getElem?_set_self hslt⟩

theorem same_geometry_store (cs X : cache_system) (k : Int) (v : cache_line)
    (h : same_geometry cs X) : same_geometry cs (store_line X k v) := h

theorem same_geometry_counted (cs : cache_system) :
    same_geometry cs (count_miss (count_access cs)) :=
  ⟨rfl, rfl, rfl, rfl, rfl, rfl, rfl, rfl⟩

/-- A miss in a 2-way set under LRU whose slot `p` is the lowest open slot: the
line goes to slot `p`, which becomes the most recent. -/
theorem lru_two_way_fill (cs : cache_system) (lru : lru_data) (s : Nat)
    (x0 x1 : cache_line) (g0 g1 : Nat) (address : Nat) (rw : Char)
    (hv : two_way_view cs lru s x0 x1 g0 g1) (hs : decode_set_idx cs address = s) :
    (x0.status = INVALID →
      ∃ r, cache_system_mem_access (lru_with lru) cs address rw = .ok r ∧ r.ret = 0 ∧
        same_geometry cs r.cs ∧
        two_way_view r.cs r.data s ⟨decode_tag cs address, install_status rw⟩ x1 1
          (if g1 > g0 then g1 - 1 else g1)) ∧
    (x0.status ≠ INVALID → x1.status = INVALID → x0.tag ≠ decode_tag cs address →
      ∃ r, cache_system_mem_access (lru_with lru) cs address rw = .ok r ∧ r.ret = 0 ∧
        same_geometry cs r.cs ∧
        two_way_view r.cs r.data s x0 ⟨decode_tag cs address, install_status rw⟩
          (if g0 > g1 then g0 - 1 else g0) 1) := by
  have hfree := first_invalid_two_way cs s x0 x1 hv.1 hv.2.2.1 hv.2.2.2.1 hv.2.2.2.2.1
  constructor
  · intro hx0
    rw [if_pos hx0] at hfree
    obtain ⟨lru1, ha, hview⟩ := lru_after_store_slot0 cs (count_miss (count_access cs)) lru s
      x0 x1 g0 g1 ⟨decode_tag cs address, install_status rw⟩ hv rfl rfl
      (install_status_ne_invalid rw)
    have hstep := mem_access_install (lru_with lru) cs address rw 0 lru1
      (by rw [hs]; exact hfree) (by rw [hs]; exact ha)
    rw [hs] at hstep
    exact ⟨_, hstep, rfl, same_geometry_counted cs, hview⟩
  · intro hx0 hx1 htag
    rw [if_neg hx0, if_pos hx1] at hfree
    obtain ⟨lru1, ha, hview⟩ := lru_after_store_slot1 cs (count_miss (count_access cs)) lru s
      x0 x1 g0 g1 ⟨decode_tag cs address, install_status rw⟩ hv rfl rfl
      (install_status_ne_invalid rw) (fun h => htag h.2)
    have hstep := mem_access_install (lru_with lru) cs address rw 1 lru1
      (by rw [hs]; exact hfree) (by rw [hs]; exact ha)
    rw [hs] at hstep
    exact ⟨_, hstep, rfl, same_geometry_counted cs, hview⟩

/-- A miss in a full 2-way set under LRU: the slot of age 0 is replaced and
becomes the most recent. -/
theorem lru_two_way_evict (cs : cache_system) (lru : lru_data) (s : Nat)
    (x0 x1 : cache_line) (g0 g1 : Nat) (address : Nat) (rw : Char)
    (hv : two_way_view cs lru s x0 x1 g0 g1) (hs : decode_set_idx cs address = s)
    (hx0 : x0.status ≠ INVALID) (hx1 : x1.status ≠ INVALID) :
    (g0 = 0 →
      ∃ r, cache_system_mem_access (lru_with lru) cs address rw = .ok r ∧ r.ret = 0 ∧
        same_geometry cs r.cs ∧
        two_way_view r.cs r.data s ⟨decode_tag cs address, install_status rw⟩ x1 1
          (if g1 > g0 then g1 - 1 else g1)) ∧
    (g0 ≠ 0 → g1 = 0 → x0.tag ≠ decode_tag cs address →
      ∃ r, cache_system_mem_access (lru_with lru) cs address rw = .ok r ∧ r.ret = 0 ∧
        same_geometry cs r.cs ∧
        two_way_view r.cs r.data s x0 ⟨decode_tag cs address, install_status rw⟩
          (if g0 > g1 then g0 - 1 else g0) 1) := by
  obtain ⟨hc, hl, halloc, h0, h1, hages⟩ := hv
  have hv : two_way_view cs lru s x0 x1 g0 g1 := ⟨hc, hl, halloc, h0, h1, hages⟩
  have hfull := first_invalid_two_way cs s x0 x1 hc halloc h0 h1
  rw [if_neg hx0, if_neg hx1] at hfull
  have hevx := lru_eviction_index_two_way (count_miss (count_access cs)) lru s g0 g1 hl hages
  have hstart := set_start_of_eq cs s (by have := halloc.2; omega)
  have hX : ∀ ev : cache_line,
      (if ev.status = MODIFIED then count_dirty_eviction (count_miss (count_access cs))
        else count_miss (count_access cs)).cache_lines = cs.cache_lines ∧
      (if ev.status = MODIFIED then count_dirty_eviction (count_miss (count_access cs))
        else count_miss (count_access cs)).associativity = cs.associativity ∧
      same_geometry cs
        (if ev.status = MODIFIED then count_dirty_eviction (count_miss (count_access cs))
        else count_miss (count_access cs)) := by
    intro ev
    split_ifs
    · exact ⟨rfl, rfl, rfl, rfl, rfl, rfl, rfl, rfl, rfl, rfl⟩
    · exact ⟨rfl, rfl, rfl, rfl, rfl, rfl, rfl, rfl, rfl, rfl⟩
  constructor
  · intro hg0
    rw [if_pos hg0] at hevx
    have hev : (lru_with lru).eviction_index (lru_with lru).data
        (count_miss (count_access cs)) (decode_set_idx cs address) = .ok (0, lru) := by
      simp only [lru_with, lru_replacement_policy_new, hs, hevx]
    have hline : line_at cs.cache_lines
        (set_start_of cs (decode_set_idx cs address) + ((0 : Nat) : Int)) = some x0 := by
      rw [hs, hstart, line_at_nat]
      unfold set_line at h0
      exact h0
    obtain ⟨lru1, ha, hview⟩ := lru_after_store_slot0 cs
      (if x0.status = MODIFIED then count_dirty_eviction (count_miss (count_access cs))
        else count_miss (count_access cs)) lru s
      x0 x1 g0 g1 ⟨decode_tag cs address, install_status rw⟩ hv (hX x0).1 (hX x0).2.1
      (install_status_ne_invalid rw)
    have hstep := mem_access_evict (lru_with lru) cs address rw 0 lru lru1 x0
      (by rw [hs]; exact hfull) hev (by omega) (by omega) hline (by rw [hs]; exact ha)
    rw [hs] at hstep
    exact ⟨_, hstep, rfl, (hX x0).2.2, hview⟩
  · intro hg0 hg1 htag
    rw [if_neg hg0, if_pos hg1] at hevx
    have hev : (lru_with lru).eviction_index (lru_with lru).data
        (count_miss (count_access cs)) (decode_set_idx cs address) = .ok (1, lru) := by
      simp only [lru_with, lru_replacement_policy_new, hs, hevx]
    have hline : line_at cs.cache_lines
        (set_start_of cs (decode_set_idx cs address) + ((1 : Nat) : Int)) = some x1 := by
      rw [hs, hstart, line_at_nat]
      unfold set_line at h1
      exact h1
    obtain ⟨lru1, ha, hview⟩ := lru_after_store_slot1 cs
      (if x1.status = MODIFIED then count_dirty_eviction (count_miss (count_access cs))
        else count_miss (count_access cs)) lru s
      x0 x1 g0 g1 ⟨decode_tag cs address, install_status rw⟩ hv (hX x1).1 (hX x1).2.1
      (install_status_ne_invalid rw) (fun h => htag h.2)
    have hstep := mem_access_evict (lru_with lru) cs address rw 1 lru lru1 x1
      (by rw [hs]; exact hfull) hev (by omega) (by omega) hline (by rw [hs]; exact ha)
    rw [hs] at hstep
    exact ⟨_, hstep, rfl, (hX x1).2.2, hview⟩

/-- Claim C9: in a cache system of associativity 2 under LRU, for an allocated
set whose two lines are `INVALID` with ages 0, 1 and three addresses of that set
with tags A, B, C, where A differs from B and from C, the accesses A, B, A
return 0 and leave A in slot 0 and B in slot 1; `lru_eviction_index` then names
slot 1, and the access for C returns 0, replaces B by C and keeps A. -/
theorem lru_evicts_least_recently_used (cs : cache_system) (lru : lru_data) (s : Nat)
    (x0 x1 : cache_line) (a b c : Nat) (w1 w2 w3 w4 : Char)
    (hassoc : cs.associativity = 2) (hlassoc : lru.associativity = 2)
    (halloc : set_allocated cs s)
    (h0 : set_line cs s 0 = some x0) (h1 : set_line cs s 1 = some x1)
    (hx0 : x0.status = INVALID) (hx1 : x1.status = INVALID)
    (hages : lru.ages[s]? = some [0, 1])
    (ha : decode_set_idx cs a = s) (hb : decode_set_idx cs b = s)
    (hc : decode_set_idx cs c = s)
    (hab : decode_tag cs a ≠ decode_tag cs b) (hac : decode_tag cs a ≠ decode_tag cs c) :
    ∃ st3 r,
      run_accesses (lru_with lru) cs [] [(a, w1), (b, w2), (a, w3)] = .ok st3 ∧
      st3.rets = [0, 0, 0] ∧
      set_line st3.cs s 0 = some ⟨decode_tag cs a, install_status w3⟩ ∧
      set_line st3.cs s 1 = some ⟨decode_tag cs b, install_status w2⟩ ∧
      lru_eviction_index st3.data st3.cs s = .ok 1 ∧
      cache_system_mem_access (lru_with st3.data) st3.cs c w4 = .ok r ∧ r.ret = 0 ∧
      set_line r.cs s 0 = some ⟨decode_tag cs a, install_status w3⟩ ∧
      set_line r.cs s 1 = some ⟨decode_tag cs c, install_status w4⟩ := by
  have e10 : (if (1 : Nat) > 0 then 1 - 1 else 1) = 0 := rfl
  have hv0 : two_way_view cs lru s x0 x1 0 1 := ⟨hassoc, hlassoc, halloc, h0, h1, hages⟩
  -- first access: A goes to slot 0
  obtain ⟨r1, hr1, hret1, hg1, hv1⟩ := (lru_two_way_fill cs lru s x0 x1 0 1 a w1 hv0 ha).1 hx0
  rw [e10] at hv1
  have hd1 := fun x => decode_same_geometry cs r1.cs hg1 x
  -- second access: B goes to slot 1
  obtain ⟨r2, hr2, hret2, hg2, hv2⟩ := (lru_two_way_fill r1.cs r1.data s _ x1 1 0 b w2 hv1
    (by rw [(hd1 b).1]; exact hb)).2 (install_status_ne_invalid w1) hx1
    (by rw [(hd1 b).2]; exact hab)
  rw [e10, (hd1 b).2] at hv2
  have hg02 := same_geometry_trans cs r1.cs r2.cs hg1 hg2
  have hd2 := fun x => decode_same_geometry cs r2.cs hg02 x
  -- third access: A again is a miss, slot 0 has age 0 and is replaced by A
  obtain ⟨r3, hr3, hret3, hg3, hv3⟩ := (lru_two_way_evict r2.cs r2.data s _ _ 0 1 a w3 hv2
    (by rw [(hd2 a).1]; exact ha) (install_status_ne_invalid w1)
    (install_status_ne_invalid w2)).1 rfl
  rw [e10, (hd2 a).2] at hv3
  have hg03 := same_geometry_trans cs r2.cs r3.cs hg02 hg3
  have hd3 := fun x => decode_same_geometry cs r3.cs hg03 x
  -- fourth access: C replaces slot 1
  obtain ⟨r4, hr4, hret4, _, hv4⟩ := (lru_two_way_evict r3.cs r3.data s _ _ 1 0 c w4 hv3
    (by rw [(hd3 c).1]; exact hc) (install_status_ne_invalid w3)
    (install_status_ne_invalid w2)).2 (by decide) rfl
    (by rw [(hd3 c).2]; exact hac)
  rw [(hd3 c).2] at hv4
  refine ⟨⟨r3.cs, r3.data, [0, 0, 0]⟩, r4, ?_, rfl, hv3.2.2.2.1, hv3.2.2.2.2.1, ?_, hr4,
    hret4, hv4.2.2.2.1, hv4.2.2.2.2.1⟩
  · rw [run_accesses_cons _ _ _ _ _ _ _ hr1, lru_with_data,
      run_accesses_cons _ _ _ _ _ _ _ hr2, lru_with_data,
      run_accesses_cons _ _ _ _ _ _ _ hr3, lru_with_data, hret1, hret2, hret3]
    rfl
  · rw [lru_eviction_index_two_way r3.cs r3.data s 1 0 hv3.2.1 hv3.2.2.2.2.2]
    rfl

/-- Witness of `lru_evicts_least_recently_used`: set 0 of `geometry_4_1_27` and
the addresses `0x00`, `0x20`, `0x40`, whose tags are 0, 1, 2. -/
theorem lru_evicts_least_recently_used_witness :
    geometry_4_1_27.associativity = 2 ∧
    (lru_replacement_policy_new 2 2).data.associativity = 2 ∧
    set_allocated geometry_4_1_27 0 ∧
    set_line geometry_4_1_27 0 0 = some ⟨0, INVALID⟩ ∧
    set_line geometry_4_1_27 0 1 = some ⟨0, INVALID⟩ ∧
    (lru_replacement_policy_new 2 2).data.ages[0]? = some [0, 1] ∧
    decode_set_idx geometry_4_1_27 0 = 0 ∧ decode_set_idx geometry_4_1_27 32 = 0 ∧
    decode_set_idx geometry_4_1_27 64 = 0 ∧
    decode_tag geometry_4_1_27 0 ≠ decode_tag geometry_4_1_27 32 ∧
    decode_tag geometry_4_1_27 0 ≠ decode_tag geometry_4_1_27 64 ∧
    ∃ st3 r,
      run_accesses (lru_with (lru_replacement_policy_new 2 2).data) geometry_4_1_27 []
        [(0, 'R'), (32, 'W'), (0, 'R')] = .ok st3 ∧
      st3.rets = [0, 0, 0] ∧
      set_line st3.cs 0 0 = some ⟨0, EXCLUSIVE⟩ ∧
      set_line st3.cs 0 1 = some ⟨1, MODIFIED⟩ ∧
      lru_eviction_index st3.data st3.cs 0 = .ok 1 ∧
      cache_system_mem_access (lru_with st3.data) st3.cs 64 'R' = .ok r ∧ r.ret = 0 ∧
      set_line r.cs 0 0 = some ⟨0, EXCLUSIVE⟩ ∧
      set_line r.cs 0 1 = some ⟨2, EXCLUSIVE⟩ :=
  ⟨rfl, rfl, ⟨by decide, by decide⟩, rfl, rfl, rfl, rfl, rfl, rfl, by decide, by decide,
    lru_evicts_least_recently_used geometry_4_1_27 (lru_replacement_policy_new 2 2).data 0
      ⟨0, INVALID⟩ ⟨0, INVALID⟩ 0 32 64 'R' 'W' 'R' 'R' rfl rfl ⟨by decide, by decide⟩ rfl rfl
      rfl rfl rfl rfl rfl rfl (by decide) (by decide)⟩

/-! ## The three ways a call of `cache_system_mem_access` returns -/

/-- A returning call of `cache_system_mem_access` is one of: an install in the
open slot `i`; a refusal of the slot `e` that the policy named (return value 1);
a replacement of the line in the slot `e` that the policy named. -/
theorem mem_access_cases {σ : Type} (rp : replacement_policy σ) (cs : cache_system)
    (address : Nat) (rw : Char) (r : access_result σ)
    (h : cache_system_mem_access rp cs address rw = .ok r) :
    (∃ i d1,
      first_invalid cs.cache_lines (set_start_of cs (decode_set_idx cs address))
        cs.associativity 0 = .ok (some i) ∧
      rp.cache_access rp.data
        (store_line (count_miss (count_access cs))
          (set_start_of cs (decode_set_idx cs address) + (i : Int))
          ⟨decode_tag cs address, install_status rw⟩)
        (decode_set_idx cs address) (decode_tag cs address) = .ok d1 ∧
      r = ⟨0, store_line (count_miss (count_access cs))
          (set_start_of cs (decode_set_idx cs address) + (i : Int))
          ⟨decode_tag cs address, install_status rw⟩, d1⟩) ∨
    (∃ e d1,
      first_invalid cs.cache_lines (set_start_of cs (decode_set_idx cs address))
        cs.associativity 0 = .ok none ∧
      rp.eviction_index rp.data (count_miss (count_access cs))
        (decode_set_idx cs address) = .ok (e, d1) ∧
      (to_int e < 0 ∨ cs.associativity ≤ e) ∧
      r = ⟨1, count_miss (count_access cs), d1⟩) ∨
    (∃ e d1 ev d2,
      first_invalid cs.cache_lines (set_start_of cs (decode_set_idx cs address))
        cs.associativity 0 = .ok none ∧
      rp.eviction_index rp.data (count_miss (count_access cs))
        (decode_set_idx cs address) = .ok (e, d1) ∧
      ¬ (to_int e < 0 ∨ cs.associativity ≤ e) ∧
      line_at cs.cache_lines (set_start_of cs (decode_set_idx cs address) + to_int e)
        = some ev ∧
      rp.cache_access d1
        (store_line
          (if ev.status = MODIFIED then
            count_dirty_eviction (count_miss (count_access cs))
          else count_miss (count_access cs))
          (set_start_of cs (decode_set_idx cs address) + to_int e)
          ⟨decode_tag cs address, install_status rw⟩)
        (decode_set_idx cs address) (decode_tag cs address) = .ok d2 ∧
      r = ⟨0, store_line
          (if ev.status = MODIFIED then
            count_dirty_eviction (count_miss (count_access cs))
          else count_miss (count_access cs))
          (set_start_of cs (decode_set_idx cs address) + to_int e)
          ⟨decode_tag cs address, install_status rw⟩, d2⟩) := by
  unfold cache_system_mem_access cache_system_find_cache_line mem_access_miss at h
  have e1 : (count_miss (count_access cs)).cache_lines = cs.cache_lines := rfl
  have e2 : (count_miss (count_access cs)).associativity = cs.associativity := rfl
  have e3 : decode_set_idx (count_access cs) address = decode_set_idx cs address := rfl
  have e4 : decode_tag (count_access cs) address = decode_tag cs address := rfl
  have e5 : ∀ s, set_start_of (count_miss (count_access cs)) s = set_start_of cs s :=
    fun _ => rfl
  simp only [e1, e2, e3, e4, e5] at h
  split at h
  · cases h
  · next i hfree =>
    obtain ⟨hret, hcs, hd⟩ := notify_policy_ok _ _ _ _ _ _ h
    left
    refine ⟨i, r.data, hfree, hd, ?_⟩
    obtain ⟨ret, rcs, rdata⟩ := r
    simp only at hret hcs
    rw [hret, hcs]
  · next hfull =>
    split at h
    · cases h
    · next e d1 hev =>
      split at h
      · next hout =>
        right; left
        cases h
        exact ⟨e, d1, hfull, hev, hout, rfl⟩
      · next hin =>
        split at h
        · cases h
        · next ev hline =>
          obtain ⟨hret, hcs, hd⟩ := notify_policy_ok _ _ _ _ _ _ h
          right; right
          refine ⟨e, d1, ev, r.data, hfull, hev, hin, hline, hd, ?_⟩
          obtain ⟨ret, rcs, rdata⟩ := r
          simp only at hret hcs
          rw [hret, hcs]

theorem first_invalid_some (lines : List cache_line) (st : Int) (n : Nat) :
    ∀ (i k : Nat), first_invalid lines st n i = .ok (some k) →
      i ≤ k ∧ k < i + n ∧ ∃ l, line_at lines (st + (k : Int)) = some l ∧ l.status = INVALID := by
  induction n with
  | zero =>
    intro i k h
    simp [first_invalid] at h
  | succ n ih =>
    intro i k h
    unfold first_invalid at h
    split at h
    · cases h
    · next l hl =>
      split at h
      · next hs =>
        cases h
        exact ⟨Nat.le_refl _, by omega, l, hl, hs⟩
      · obtain ⟨a1, a2, a3⟩ := ih _ _ h
        exact ⟨by omega, by omega, a3⟩

theorem first_invalid_none (lines : List cache_line) (st : Int) (n : Nat) :
    ∀ (i : Nat), first_invalid lines st n i = .ok none →
      ∀ k, i ≤ k → k < i + n →
        ∃ l, line_at lines (st + (k : Int)) = some l ∧ l.status ≠ INVALID := by
  induction n with
  | zero =>
    intro i _ k h1 h2
    omega
  | succ n ih =>
    intro i h k h1 h2
    unfold first_invalid at h
    split at h
    · cases h
    · next l hl =>
      split at h
      · cases h
      · next hs =>
        by_cases hk : k = i
        · subst hk
          exact ⟨l, hl, hs⟩
        · exact ih _ h k (by omega) (by omega)

theorem line_at_some (lines : List cache_line) (k : Int) (l : cache_line)
    (h : line_at lines k = some l) :
    0 ≤ k ∧ k.toNat < lines.length ∧ lines[k.toNat]? = some l := by
  unfold line_at at h
  split at h
  · next hk =>
    refine ⟨hk, ?_, h⟩
    rcases Nat.lt_or_ge k.toNat lines.length with h1 | h1
    · exact h1
    · rw [List.getElem?_eq_none h1] at h; cases h
  · cases h

theorem to_int_le (u : Nat) : to_int u ≤ (u : Int) := by
  unfold to_int
  split_ifs <;> omega

/-- Claim C17: a call of `cache_system_mem_access` that returns 0 leaves the
geometry fields as they were and changes `cache_lines` in exactly one place, a
slot of the accessed set, where it stores the decoded tag; every other line of
every set keeps its tag and status. -/
theorem access_changes_one_line {σ : Type} (rp : replacement_policy σ)
    (cs : cache_system) (address : Nat) (rw : Char) (r : access_result σ)
    (h : cache_system_mem_access rp cs address rw = .ok r) (hret : r.ret = 0) :
    same_geometry cs r.cs ∧
    ∃ (i k : Nat), i < cs.associativity ∧
      (k : Int) = set_start_of cs (decode_set_idx cs address) + (i : Int) ∧
      k < cs.cache_lines.length ∧
      r.cs.cache_lines
        = cs.cache_lines.set k ⟨decode_tag cs address, install_status rw⟩ ∧
      r.cs.cache_lines[k]? = some ⟨decode_tag cs address, install_status rw⟩ ∧
      r.cs.cache_lines.length = cs.cache_lines.length ∧
      ∀ j : Nat, j ≠ k → r.cs.cache_lines[j]? = cs.cache_lines[j]? := by
  rcases mem_access_cases rp cs address rw r h with
    ⟨i, d1, hfree, _, hr⟩ | ⟨e, d1, _, _, _, hr⟩ | ⟨e, d1, ev, d2, _, _, hin, hline, _, hr⟩
  · obtain ⟨_, hi, l, hl, _⟩ := first_invalid_some _ _ _ _ _ hfree
    obtain ⟨h0, hlt, _⟩ := line_at_some _ _ _ hl
    subst hr
    refine ⟨same_geometry_counted cs, i,
      (set_start_of cs (decode_set_idx cs address) + (i : Int)).toNat, by omega, by omega,
      hlt, rfl, ?_, ?_, ?_⟩
    · exact List.getElem?_set_self hlt
    · simp [store_line, count_miss, count_access]
    · intro j hj
      exact List.getElem?_set_ne (Ne.symm hj)
  · subst hr
    simp at hret
  · obtain ⟨h0, hlt, _⟩ := line_at_some _ _ _ hline
    have hle := to_int_le e
    subst hr
    have hgeo : same_geometry cs
        (if ev.status = MODIFIED then count_dirty_eviction (count_miss (count_access cs))
          else count_miss (count_access cs)) := by
      split_ifs
      · exact ⟨rfl, rfl, rfl, rfl, rfl, rfl, rfl, rfl⟩
      · exact ⟨rfl, rfl, rfl, rfl, rfl, rfl, rfl, rfl⟩
    have hlines : (if ev.status = MODIFIED then
          count_dirty_eviction (count_miss (count_access cs))
        else count_miss (count_access cs)).cache_lines = cs.cache_lines := by
      split_ifs <;> rfl
    refine ⟨hgeo, (to_int e).toNat,
      (set_start_of cs (decode_set_idx cs address) + to_int e).toNat, by omega, by omega,
      hlt, ?_, ?_, ?_, ?_⟩
    · simp only [store_line, hlines]
    · simp only [store_line, hlines]
      exact List.getElem?_set_self hlt
    · simp only [store_line, hlines, List.length_set]
    · intro j hj
      simp only [store_line, hlines]
      exact List.getElem?_set_ne (Ne.symm hj)

/-- Witness of `access_changes_one_line`: the read of `0x20` on `geometry_4_1_27`
stores tag 1 in line 0 and leaves lines 1, 2, 3 as they were. -/
theorem access_changes_one_line_witness :
    cache_system_mem_access (lru_replacement_policy_new 2 2) geometry_4_1_27 32 'R'
      = .ok ⟨0, { geometry_4_1_27 with
          stats := ⟨1, 0, 1, 0⟩
          cache_lines := [⟨1, EXCLUSIVE⟩, ⟨0, INVALID⟩, ⟨0, INVALID⟩, ⟨0, INVALID⟩] },
        ⟨[[1, 0], [0, 1]], 2, 2⟩⟩ ∧
    same_geometry geometry_4_1_27 { geometry_4_1_27 with
      stats := ⟨1, 0, 1, 0⟩
      cache_lines := [⟨1, EXCLUSIVE⟩, ⟨0, INVALID⟩, ⟨0, INVALID⟩, ⟨0, INVALID⟩] } :=
  ⟨rfl, (access_changes_one_line (lru_replacement_policy_new 2 2) geometry_4_1_27 32 'R' _
    rfl rfl).1⟩

/-! ## Full sets and the range check -/

theorem first_invalid_none_iff (cs : cache_system) (s : Nat) (halloc : set_allocated cs s) :
    first_invalid cs.cache_lines (set_start_of cs s) cs.associativity 0 = .ok none ↔
      set_full cs s := by
  obtain ⟨hb1, hb2⟩ := halloc
  have hz : cs.associativity = 0 → s * cs.associativity = 0 := fun h => by rw [h]; rfl
  rw [set_start_of_eq cs s (by omega)]
  rcases first_invalid_spec cs.cache_lines (s * cs.associativity) cs.associativity 0
      (by omega) with ⟨k, l, h1, _, h3, h4, h5, _⟩ | ⟨h1, h2⟩
  · constructor
    · intro h
      rw [h1] at h
      cases h
    · intro hf
      exact absurd h5 (hf k l (by omega) h4)
  · constructor
    · intro _ k l hk hl
      exact h2 k l (Nat.zero_le _) (by omega) hl
    · intro _
      exact h1

theorem first_invalid_some_iff (cs : cache_system) (s k : Nat)
    (halloc : set_allocated cs s) :
    first_invalid cs.cache_lines (set_start_of cs s) cs.associativity 0 = .ok (some k) ↔
      (k < cs.associativity ∧ (∃ l, set_line cs s k = some l ∧ l.status = INVALID) ∧
        ∀ k1 l1, k1 < k → set_line cs s k1 = some l1 → l1.status ≠ INVALID) := by
  obtain ⟨hb1, hb2⟩ := halloc
  have hz : cs.associativity = 0 → s * cs.associativity = 0 := fun h => by rw [h]; rfl
  rw [set_start_of_eq cs s (by omega)]
  rcases first_invalid_spec cs.cache_lines (s * cs.associativity) cs.associativity 0
      (by omega) with ⟨k0, l, h1, _, h3, h4, h5, h6⟩ | ⟨h1, h2⟩
  · constructor
    · intro h
      rw [h1] at h
      have hk : k0 = k := Option.some.inj (Except.ok.inj h)
      subst hk
      exact ⟨by omega, ⟨l, h4, h5⟩, fun k1 l1 a1 a2 => h6 k1 l1 (Nat.zero_le _) a1 a2⟩
    · intro ⟨a1, ⟨l', a2, a3⟩, a4⟩
      have hk : k0 = k := by
        rcases Nat.lt_trichotomy k0 k with c | c | c
        · exact absurd h5 (a4 k0 l c h4)
        · exact c
        · exact absurd a3 (h6 k l' (Nat.zero_le _) c a2)
      rw [h1, hk]
  · constructor
    · intro h
      rw [h1] at h
      cases h
    · intro ⟨a1, ⟨l', a2, a3⟩, _⟩
      exact absurd a3 (h2 k l' (Nat.zero_le _) (by omega) a2)

theorem range_check_iff (cs : cache_system) (e : Nat) (he : e < 4294967296) :
    ¬ (to_int e < 0 ∨ cs.associativity ≤ e) ↔ eviction_in_set cs e := by
  unfold eviction_in_set to_int
  split_ifs <;> omega

theorem to_int_in_set (cs : cache_system) (e : Nat) (he : e < 4294967296)
    (h : eviction_in_set cs e) : to_int e = (e : Int) ∧ e < cs.associativity := by
  unfold eviction_in_set to_int at *
  split_ifs at * <;> omega

/-! ## The RAND policy stays inside the set -/

/-- Claim C11: for a positive associativity and any value that `rand()` returns
(a non-negative `int`), `rand_eviction_index` returns a slot `i` with
`0 ≤ i < associativity`, which passes the range check of
`cache_system_mem_access`; so no call under the RAND policy returns through the
out-of-range branch: every returning call returns 0. -/
theorem rand_eviction_index_in_set (d : rand_data) (cs : cache_system) (set_idx : Nat)
    (hassoc : 0 < cs.associativity) (hrand : ∀ n, d.values n ≤ 2147483647) :
    (∃ i d1, rand_eviction_index d cs set_idx = .ok (i, d1) ∧
      i < cs.associativity ∧ eviction_in_set cs i) ∧
    (∀ (d0 : rand_data) (address : Nat) (rw : Char) (r : access_result rand_data),
      d0.values = d.values →
      cache_system_mem_access (rand_with d0) cs address rw = .ok r → r.ret = 0) := by
  have hne : cs.associativity ≠ 0 := by omega
  have key : ∀ (d0 : rand_data), d0.values = d.values →
      d0.values d0.calls % cs.associativity < cs.associativity ∧
      eviction_in_set cs (d0.values d0.calls % cs.associativity) := by
    intro d0 hd0
    have h1 := Nat.mod_lt (d0.values d0.calls) hassoc
    have h2 := Nat.mod_le (d0.values d0.calls) cs.associativity
    have h3 := hrand d0.calls
    rw [← hd0] at h3
    refine ⟨h1, ?_⟩
    unfold eviction_in_set
    rw [to_int_of_lt _ (by omega)]
    omega
  constructor
  · refine ⟨d.values d.calls % cs.associativity, { d with calls := d.calls + 1 }, ?_,
      (key d rfl).1, (key d rfl).2⟩
    unfold rand_eviction_index
    rw [if_neg hne]
  · intro d0 address rw r hd0 h
    rcases mem_access_cases (rand_with d0) cs address rw r h with
      ⟨i, d1, _, _, hr⟩ | ⟨e, d1, _, hev, hout, hr⟩ | ⟨e, d1, ev, d2, _, _, _, _, _, hr⟩
    · rw [hr]
    · have hev1 : rand_eviction_index d0 (count_miss (count_access cs))
          (decode_set_idx cs address) = .ok (e, d1) := hev
      unfold rand_eviction_index at hev1
      have hne1 : (count_miss (count_access cs)).associativity ≠ 0 := hne
      rw [if_neg hne1] at hev1
      have he : d0.values d0.calls % cs.associativity = e :=
        (Prod.mk.inj (Except.ok.inj hev1)).1
      obtain ⟨k1, k2⟩ := key d0 hd0
      rw [he] at k1 k2
      unfold eviction_in_set at k2
      omega
    · rw [hr]

/-- Witness of `rand_eviction_index_in_set`: a full 2-way set and a generator
that returns 7 at every call; slot `7 % 2 = 1` is replaced and the call
returns 0. -/
theorem rand_eviction_index_in_set_witness :
    0 < dirty_clean_system.associativity ∧
    (∀ n : Nat, (⟨fun _ => 7, 0⟩ : rand_data).values n ≤ 2147483647) ∧
    rand_eviction_index ⟨fun _ => 7, 0⟩ dirty_clean_system 0 = .ok (1, ⟨fun _ => 7, 1⟩) ∧
    (∃ r, cache_system_mem_access (rand_with ⟨fun _ => 7, 0⟩) dirty_clean_system 0 'R'
        = .ok r ∧ r.ret = 0 ∧ set_line r.cs 0 1 = some ⟨0, EXCLUSIVE⟩) ∧
    ∃ i d1, rand_eviction_index ⟨fun _ => 7, 0⟩ dirty_clean_system 0 = .ok (i, d1) ∧
      i < dirty_clean_system.associativity ∧ eviction_in_set dirty_clean_system i :=
  ⟨by decide, fun _ => (by decide : (7 : Nat) ≤ 2147483647), rfl, ⟨_, rfl, rfl, rfl⟩,
    (rand_eviction_index_in_set ⟨fun _ => 7, 0⟩ dirty_clean_system 0 (by decide)
      (fun _ => (by decide : (7 : Nat) ≤ 2147483647))).1⟩

/-! ## Dirty evictions, installs and refusals -/

theorem wrap32_succ_ne (d : Nat) : wrap32 (d + 1) ≠ d := by
  unfold wrap32
  omega

/-- What a returning call does to `dirty_evictions`: it is incremented, in
`uint32_t`, when a `MODIFIED` line is replaced, and kept otherwise. -/
theorem dirty_eviction_step {σ : Type} (rp : replacement_policy σ) (cs : cache_system)
    (address : Nat) (rw : Char) (r : access_result σ)
    (halloc : set_allocated cs (decode_set_idx cs address))
    (hu32 : ∀ e d1, rp.eviction_index rp.data (count_miss (count_access cs))
      (decode_set_idx cs address) = .ok (e, d1) → e < 4294967296)
    (h : cache_system_mem_access rp cs address rw = .ok r) :
    (dirty_eviction_due rp cs address →
      r.cs.stats.dirty_evictions = wrap32 (cs.stats.dirty_evictions + 1)) ∧
    (¬ dirty_eviction_due rp cs address →
      r.cs.stats.dirty_evictions = cs.stats.dirty_evictions) := by
  have hstart := set_start_of_eq cs (decode_set_idx cs address)
    (by
      obtain ⟨hb1, hb2⟩ := halloc
      have hz : cs.associativity = 0 → decode_set_idx cs address * cs.associativity = 0 :=
        fun h => by rw [h]; rfl
      omega)
  rcases mem_access_cases rp cs address rw r h with
    ⟨i, d1, hfree, _, hr⟩ | ⟨e, d1, hfull, hev, hout, hr⟩ |
    ⟨e, d1, ev, d2, hfull, hev, hin, hline, _, hr⟩
  · constructor
    · intro ⟨hf, _⟩
      rw [(first_invalid_none_iff cs _ halloc).2 hf] at hfree
      cases hfree
    · intro _
      rw [hr]
      rfl
  · constructor
    · intro ⟨_, e', d1', ev', hev', hin', _, _⟩
      rw [hev] at hev'
      have he : e = e' := (Prod.mk.inj (Except.ok.inj hev')).1
      subst he
      exact absurd hout ((range_check_iff cs e (hu32 e d1 hev)).2 hin')
    · intro _
      rw [hr]
      rfl
  · have he32 := hu32 e d1 hev
    have hinset := (range_check_iff cs e he32).1 hin
    obtain ⟨hte, helt⟩ := to_int_in_set cs e he32 hinset
    have hsl : set_line cs (decode_set_idx cs address) e = some ev := by
      rw [hstart, hte, line_at_nat] at hline
      exact hline
    constructor
    · intro ⟨_, e', d1', ev', hev', _, hl', hs'⟩
      rw [hev] at hev'
      have he : e = e' := (Prod.mk.inj (Except.ok.inj hev')).1
      subst he
      rw [hsl] at hl'
      have hv : ev = ev' := Option.some.inj hl'
      subst hv
      rw [hr]
      simp only [if_pos hs', store_line_stats]
      rfl
    · intro hnot
      have hclean : ¬ (ev.status = MODIFIED) := by
        intro hs
        exact hnot ⟨(first_invalid_none_iff cs _ halloc).1 hfull, e, d1, ev, hev, hinset,
          hsl, hs⟩
      rw [hr]
      simp only [if_neg hclean, store_line_stats]
      rfl

/-- Claim C12 as amended: for every returning call on an allocated set (the
policy returning a `uint32_t` slot), `dirty_evictions` is incremented by 1
modulo 2^32 when the call is a miss in a set with no `INVALID` line, the slot
named by the policy is in range and its line was `MODIFIED`, and is unchanged in
every other case; below `UINT32_MAX` it increases by exactly 1 if and only if
those three conditions hold. -/
theorem dirty_eviction_counted_iff {σ : Type} (rp : replacement_policy σ)
    (cs : cache_system) (address : Nat) (rw : Char) (r : access_result σ)
    (halloc : set_allocated cs (decode_set_idx cs address))
    (hu32 : ∀ e d1, rp.eviction_index rp.data (count_miss (count_access cs))
      (decode_set_idx cs address) = .ok (e, d1) → e < 4294967296)
    (h : cache_system_mem_access rp cs address rw = .ok r) :
    (dirty_eviction_due rp cs address →
      r.cs.stats.dirty_evictions = wrap32 (cs.stats.dirty_evictions + 1)) ∧
    (¬ dirty_eviction_due rp cs address →
      r.cs.stats.dirty_evictions = cs.stats.dirty_evictions) ∧
    (r.cs.stats.dirty_evictions ≠ cs.stats.dirty_evictions ↔
      dirty_eviction_due rp cs address) ∧
    (cs.stats.dirty_evictions < UINT32_MAX →
      (r.cs.stats.dirty_evictions = cs.stats.dirty_evictions + 1 ↔
        dirty_eviction_due rp cs address)) := by
  obtain ⟨h1, h2⟩ := dirty_eviction_step rp cs address rw r halloc hu32 h
  refine ⟨h1, h2, ?_, ?_⟩
  · constructor
    · intro hne
      by_contra hc
      exact hne (h2 hc)
    · intro hc
      rw [h1 hc]
      exact wrap32_succ_ne _
  · intro hlt
    have hw : wrap32 (cs.stats.dirty_evictions + 1) = cs.stats.dirty_evictions + 1 := by
      unfold wrap32 UINT32_MAX at *
      omega
    constructor
    · intro heq
      by_contra hc
      have := h2 hc
      omega
    · intro hc
      rw [h1 hc, hw]

/-- Witness of `dirty_eviction_counted_iff`: in `dirty_clean_system` under LRU
with ages 0, 1 the read of address 0 replaces the `MODIFIED` line of slot 0 and
`dirty_evictions` goes from 0 to 1. -/
theorem dirty_eviction_counted_iff_witness :
    set_allocated dirty_clean_system (decode_set_idx dirty_clean_system 0) ∧
    dirty_eviction_due (lru_with ⟨[[0, 1]], 1, 2⟩) dirty_clean_system 0 ∧
    cache_system_mem_access (lru_with ⟨[[0, 1]], 1, 2⟩) dirty_clean_system 0 'R'
      = .ok ⟨0, { dirty_clean_system with
          stats := ⟨1, 0, 1, 1⟩
          cache_lines := [⟨0, EXCLUSIVE⟩, ⟨2, EXCLUSIVE⟩] }, ⟨[[1, 0]], 1, 2⟩⟩ ∧
    (1 : Nat) = wrap32 (0 + 1) := by
  have hdue : dirty_eviction_due (lru_with ⟨[[0, 1]], 1, 2⟩) dirty_clean_system 0 := by
    refine ⟨?_, 0, ⟨[[0, 1]], 1, 2⟩, ⟨1, MODIFIED⟩, rfl, ⟨by decide, by decide⟩, rfl, rfl⟩
    intro k l hk hl
    have hk2 : k < 2 := hk
    interval_cases k
    · have : l = ⟨1, MODIFIED⟩ := (Option.some.inj hl).symm
      rw [this]; decide
    · have : l = ⟨2, EXCLUSIVE⟩ := (Option.some.inj hl).symm
      rw [this]; decide
  exact ⟨⟨by decide, by decide⟩, hdue, rfl,
    (dirty_eviction_counted_iff (lru_with ⟨[[0, 1]], 1, 2⟩) dirty_clean_system 0 'R' _
      ⟨by decide, by decide⟩
      (fun e d1 hev => by
        have he : 0 = e := (Prod.mk.inj (Except.ok.inj hev)).1
        omega)
      rfl).1 hdue⟩

/-- Claim C12 as stated fails: in `saturated_system` under LRU the read of
address 0 is a miss in a full set, the policy names slot 0, in range, whose line
is `MODIFIED`; `dirty_evictions` goes from `UINT32_MAX` to 0 and does not
increase. -/
theorem dirty_eviction_counter_wraps :
    dirty_eviction_due (lru_replacement_policy_new 1 1) saturated_system 0 ∧
    saturated_system.stats.dirty_evictions = 4294967295 ∧
    ∃ r, cache_system_mem_access (lru_replacement_policy_new 1 1) saturated_system 0 'R'
        = .ok r ∧
      r.ret = 0 ∧ r.cs.stats.dirty_evictions = 0 ∧
      ¬ (r.cs.stats.dirty_evictions = saturated_system.stats.dirty_evictions + 1) := by
  refine ⟨⟨?_, 0, ⟨[[0]], 1, 1⟩, ⟨0, MODIFIED⟩, rfl, ⟨by decide, by decide⟩, rfl, rfl⟩,
    rfl, _, rfl, rfl, rfl, by decide⟩
  intro k l hk hl
  have hk1 : k < 1 := hk
  interval_cases k
  have : l = ⟨0, MODIFIED⟩ := (Option.some.inj hl).symm
  rw [this]; decide

theorem mem_access_of_free {σ : Type} (rp : replacement_policy σ) (cs : cache_system)
    (address : Nat) (rw : Char) (i : Nat)
    (hfree : first_invalid cs.cache_lines (set_start_of cs (decode_set_idx cs address))
      cs.associativity 0 = .ok (some i)) :
    cache_system_mem_access rp cs address rw
      = notify_policy rp
          (store_line (count_miss (count_access cs))
            (set_start_of cs (decode_set_idx cs address) + (i : Int))
            ⟨decode_tag cs address, install_status rw⟩)
          rp.data (decode_set_idx cs address) (decode_tag cs address) := by
  unfold cache_system_mem_access cache_system_find_cache_line mem_access_miss
  have e1 : (count_miss (count_access cs)).cache_lines = cs.cache_lines := rfl
  have e2 : (count_miss (count_access cs)).associativity = cs.associativity := rfl
  have e3 : decode_set_idx (count_access cs) address = decode_set_idx cs address := rfl
  have e4 : decode_tag (count_access cs) address = decode_tag cs address := rfl
  have e5 : ∀ s, set_start_of (count_miss (count_access cs)) s = set_start_of cs s :=
    fun _ => rfl
  simp only [e1, e2, e3, e4, e5, hfree]

/-- Claim C13: for an access whose (allocated) set has an `INVALID` line, with
`k` the lowest `INVALID` slot: the result of `cache_system_mem_access` does not
depend on the policy's `eviction_index`; every returning call returns 0, leaves
in slot `k` the decoded tag with status `MODIFIED` if `rw` is `'W'` and
`EXCLUSIVE` otherwise, keeps the other slots of the set and keeps
`dirty_evictions`; and the call returns whenever the policy's `cache_access`
does. -/
theorem miss_fills_lowest_open_slot {σ : Type} (rp : replacement_policy σ)
    (cs : cache_system) (address : Nat) (rw : Char) (k : Nat) (l : cache_line)
    (halloc : set_allocated cs (decode_set_idx cs address))
    (hk : k < cs.associativity)
    (hl : set_line cs (decode_set_idx cs address) k = some l)
    (hinv : l.status = INVALID)
    (hlow : ∀ k1 l1, k1 < k → set_line cs (decode_set_idx cs address) k1 = some l1 →
      l1.status ≠ INVALID) :
    (∀ ev : σ → cache_system → Nat → Except Fault (Nat × σ),
      cache_system_mem_access { rp with eviction_index := ev } cs address rw
        = cache_system_mem_access rp cs address rw) ∧
    (∀ r, cache_system_mem_access rp cs address rw = .ok r →
      r.ret = 0 ∧
      set_line r.cs (decode_set_idx cs address) k
        = some ⟨decode_tag cs address, if rw = 'W' then MODIFIED else EXCLUSIVE⟩ ∧
      (∀ k1, k1 ≠ k → set_line r.cs (decode_set_idx cs address) k1
        = set_line cs (decode_set_idx cs address) k1) ∧
      r.cs.stats.dirty_evictions = cs.stats.dirty_evictions) ∧
    ((∃ d1, rp.cache_access rp.data
        (store_line (count_miss (count_access cs))
          (((decode_set_idx cs address * cs.associativity : Nat) : Int) + (k : Int))
          ⟨decode_tag cs address, install_status rw⟩)
        (decode_set_idx cs address) (decode_tag cs address) = .ok d1) →
      ∃ r, cache_system_mem_access rp cs address rw = .ok r) := by
  have hfree := (first_invalid_some_iff cs (decode_set_idx cs address) k halloc).2
    ⟨hk, ⟨l, hl, hinv⟩, hlow⟩
  have hstart := set_start_of_eq cs (decode_set_idx cs address)
    (by obtain ⟨hb1, hb2⟩ := halloc; omega)
  have hindep : ∀ (ev : σ → cache_system → Nat → Except Fault (Nat × σ)),
      cache_system_mem_access { rp with eviction_index := ev } cs address rw
        = cache_system_mem_access rp cs address rw := by
    intro ev
    rw [mem_access_of_free _ cs address rw k hfree, mem_access_of_free rp cs address rw k hfree]
    rfl
  refine ⟨hindep, ?_, ?_⟩
  · intro r h
    rw [mem_access_of_free rp cs address rw k hfree] at h
    obtain ⟨hret, hcs, _⟩ := notify_policy_ok _ _ _ _ _ _ h
    rw [hcs, hstart]
    refine ⟨hret, ?_, ?_, rfl⟩
    · exact set_line_store_self (count_miss (count_access cs)) _ k _ (by
        show decode_set_idx cs address * cs.associativity + k < cs.cache_lines.length
        have := halloc.1
        omega)
    · intro k1 hk1
      exact set_line_store_other (count_miss (count_access cs)) _ k k1 _ (Ne.symm hk1)
  · intro ⟨d1, hd1⟩
    rw [← hstart] at hd1
    exact ⟨_, mem_access_install rp cs address rw k d1 hfree hd1⟩

/-- Witness of `miss_fills_lowest_open_slot`: after `R 0x00` on `geometry_4_1_27`
slot 1 of set 0 is the lowest open slot; `W 0x20` stores tag 1 there as
`MODIFIED`. -/
theorem miss_fills_lowest_open_slot_witness :
    set_allocated half_filled_system (decode_set_idx half_filled_system 32) ∧
    1 < half_filled_system.associativity ∧
    set_line half_filled_system (decode_set_idx half_filled_system 32) 1
      = some ⟨0, INVALID⟩ ∧
    (∀ k1 l1, k1 < 1 →
      set_line half_filled_system (decode_set_idx half_filled_system 32) k1 = some l1 →
      l1.status ≠ INVALID) ∧
    cache_system_mem_access (lru_with ⟨[[1, 0], [0, 1]], 2, 2⟩) half_filled_system 32 'W'
      = .ok ⟨0, { half_filled_system with
          stats := ⟨1, 0, 1, 0⟩
          cache_lines := [⟨0, EXCLUSIVE⟩, ⟨1, MODIFIED⟩, ⟨0, INVALID⟩, ⟨0, INVALID⟩] },
        ⟨[[0, 1], [0, 1]], 2, 2⟩⟩ ∧
    set_line { half_filled_system with
        stats := ⟨1, 0, 1, 0⟩
        cache_lines := [⟨0, EXCLUSIVE⟩, ⟨1, MODIFIED⟩, ⟨0, INVALID⟩, ⟨0, INVALID⟩] }
      (decode_set_idx half_filled_system 32) 1 = some ⟨1, MODIFIED⟩ := by
  have hlow : ∀ k1 l1, k1 < 1 →
      set_line half_filled_system (decode_set_idx half_filled_system 32) k1 = some l1 →
      l1.status ≠ INVALID := by
    intro k1 l1 hk hl
    interval_cases k1
    have : l1 = ⟨0, EXCLUSIVE⟩ := (Option.some.inj hl).symm
    rw [this]; decide
  exact ⟨⟨by decide, by decide⟩, by decide, rfl, hlow, rfl,
    ((miss_fills_lowest_open_slot (lru_with ⟨[[1, 0], [0, 1]], 2, 2⟩) half_filled_system
      32 'W' 1 ⟨0, INVALID⟩ ⟨by decide, by decide⟩ (by decide) rfl rfl hlow).2.1 _ rfl).2.1⟩

/-- A miss in a set without open slot, for which the policy names a slot that
fails the range check: the call returns 1, with the counters of the access and
of the miss advanced and the policy data that `eviction_index` returned. -/
theorem mem_access_refuse {σ : Type} (rp : replacement_policy σ) (cs : cache_system)
    (address : Nat) (rw : Char) (e : Nat) (data1 : σ)
    (hfull : first_invalid cs.cache_lines (set_start_of cs (decode_set_idx cs address))
      cs.associativity 0 = .ok none)
    (hev : rp.eviction_index rp.data (count_miss (count_access cs))
      (decode_set_idx cs address) = .ok (e, data1))
    (hout : to_int e < 0 ∨ cs.associativity ≤ e) :
    cache_system_mem_access rp cs address rw
      = .ok ⟨1, count_miss (count_access cs), data1⟩ := by
  unfold cache_system_mem_access cache_system_find_cache_line mem_access_miss
  have e1 : (count_miss (count_access cs)).cache_lines = cs.cache_lines := rfl
  have e2 : (count_miss (count_access cs)).associativity = cs.associativity := rfl
  have e3 : decode_set_idx (count_access cs) address = decode_set_idx cs address := rfl
  have e4 : decode_tag (count_access cs) address = decode_tag cs address := rfl
  have e5 : ∀ s, set_start_of (count_miss (count_access cs)) s = set_start_of cs s :=
    fun _ => rfl
  simp only [e1, e2, e3, e4, e5, hfull, hev, if_pos hout]

/-- Claim C14: on an allocated set (the policy returning a `uint32_t` slot),
when the access is a miss in a set with no `INVALID` line and the slot named by
the policy is outside `[0, associativity)`, the call returns, with the value 1,
the counters of the access and of the miss advanced and the policy data that
`eviction_index` returned; and a call that returns, returns a non-zero value if
and only if that is the case: the value is then 1, `cache_lines` and
`dirty_evictions` are unchanged, and the policy data are those that
`eviction_index` returned, without the update of `cache_access`. -/
theorem access_fails_iff_eviction_refused {σ : Type} (rp : replacement_policy σ)
    (cs : cache_system) (address : Nat) (rw : Char)
    (halloc : set_allocated cs (decode_set_idx cs address))
    (hu32 : ∀ e d1, rp.eviction_index rp.data (count_miss (count_access cs))
      (decode_set_idx cs address) = .ok (e, d1) → e < 4294967296) :
    (∀ e d1, set_full cs (decode_set_idx cs address) →
      rp.eviction_index rp.data (count_miss (count_access cs))
        (decode_set_idx cs address) = .ok (e, d1) →
      ¬ eviction_in_set cs e →
      cache_system_mem_access rp cs address rw
        = .ok ⟨1, count_miss (count_access cs), d1⟩) ∧
    (eviction_refused rp cs address →
      ∃ r, cache_system_mem_access rp cs address rw = .ok r ∧ r.ret = 1) ∧
    (∀ r, cache_system_mem_access rp cs address rw = .ok r →
      (r.ret ≠ 0 ↔ eviction_refused rp cs address) ∧
      (r.ret ≠ 0 →
        r.ret = 1 ∧ r.cs.cache_lines = cs.cache_lines ∧
        r.cs.stats.dirty_evictions = cs.stats.dirty_evictions ∧
        same_geometry cs r.cs ∧
        ∃ e d1, rp.eviction_index rp.data (count_miss (count_access cs))
            (decode_set_idx cs address) = .ok (e, d1) ∧ r.data = d1)) := by
  have hret : ∀ e d1, set_full cs (decode_set_idx cs address) →
      rp.eviction_index rp.data (count_miss (count_access cs))
        (decode_set_idx cs address) = .ok (e, d1) →
      ¬ eviction_in_set cs e →
      cache_system_mem_access rp cs address rw
        = .ok ⟨1, count_miss (count_access cs), d1⟩ := by
    intro e d1 hf hev hout
    have hout1 : to_int e < 0 ∨ cs.associativity ≤ e := by
      by_contra hc
      exact hout ((range_check_iff cs e (hu32 e d1 hev)).1 hc)
    exact mem_access_refuse rp cs address rw e d1
      ((first_invalid_none_iff cs _ halloc).2 hf) hev hout1
  refine ⟨hret, ?_, ?_⟩
  · intro ⟨hf, e, d1, hev, hout⟩
    exact ⟨_, hret e d1 hf hev hout, rfl⟩
  intro r h
  rcases mem_access_cases rp cs address rw r h with
    ⟨i, d1, hfree, _, hr⟩ | ⟨e, d1, hfull, hev, hout, hr⟩ |
    ⟨e, d1, ev, d2, hfull, hev, hin, hline, _, hr⟩
  · have h0 : r.ret = 0 := by rw [hr]
    refine ⟨⟨fun hne => absurd h0 hne, ?_⟩, fun hne => absurd h0 hne⟩
    intro ⟨hf, _⟩
    rw [(first_invalid_none_iff cs _ halloc).2 hf] at hfree
    cases hfree
  · have h1 : r.ret = 1 := by rw [hr]
    have hne : r.ret ≠ 0 := by rw [h1]; decide
    refine ⟨⟨fun _ => ?_, fun _ => hne⟩, fun _ => ?_⟩
    · refine ⟨(first_invalid_none_iff cs _ halloc).1 hfull, e, d1, hev, ?_⟩
      intro hin
      exact ((range_check_iff cs e (hu32 e d1 hev)).2 hin) hout
    · rw [hr]
      exact ⟨rfl, rfl, rfl, same_geometry_counted cs, e, d1, hev, rfl⟩
  · have h0 : r.ret = 0 := by rw [hr]
    refine ⟨⟨fun hne => absurd h0 hne, ?_⟩, fun hne => absurd h0 hne⟩
    intro ⟨_, e', d1', hev', hout'⟩
    rw [hev] at hev'
    have he : e = e' := (Prod.mk.inj (Except.ok.inj hev')).1
    subst he
    exact absurd ((range_check_iff cs e (hu32 e d1 hev)).1 hin) hout'

/-- Witness of `access_fails_iff_eviction_refused`: on the full set of
`dirty_clean_system`, a policy that names slot 2 of the 2-way set makes the call
return 1, with the two counters advanced and the lines as they were. -/
theorem access_fails_iff_eviction_refused_witness :
    set_allocated dirty_clean_system (decode_set_idx dirty_clean_system 0) ∧
    set_full dirty_clean_system (decode_set_idx dirty_clean_system 0) ∧
    slot_two_policy.eviction_index slot_two_policy.data
        (count_miss (count_access dirty_clean_system))
        (decode_set_idx dirty_clean_system 0) = .ok (2, ⟨[[0, 1]], 1, 2⟩) ∧
    ¬ eviction_in_set dirty_clean_system 2 ∧
    cache_system_mem_access slot_two_policy dirty_clean_system 0 'W'
      = .ok ⟨1, count_miss (count_access dirty_clean_system), ⟨[[0, 1]], 1, 2⟩⟩ ∧
    count_miss (count_access dirty_clean_system)
      = { dirty_clean_system with stats := ⟨1, 0, 1, 0⟩ } := by
  have hfull : set_full dirty_clean_system (decode_set_idx dirty_clean_system 0) := by
    intro k l hk hl
    have hk2 : k < 2 := hk
    interval_cases k
    · have : l = ⟨1, MODIFIED⟩ := (Option.some.inj hl).symm
      rw [this]; decide
    · have : l = ⟨2, EXCLUSIVE⟩ := (Option.some.inj hl).symm
      rw [this]; decide
  have hout : ¬ eviction_in_set dirty_clean_system 2 := by
    unfold eviction_in_set
    decide
  exact ⟨⟨by decide, by decide⟩, hfull, rfl, hout,
    (access_fails_iff_eviction_refused slot_two_policy dirty_clean_system 0 'W'
      ⟨by decide, by decide⟩
      (fun e d1 hev => by
        have he : 2 = e := (Prod.mk.inj (Except.ok.inj hev)).1
        omega)).1 2 ⟨[[0, 1]], 1, 2⟩ hfull rfl hout, rfl⟩

/-! ## Construction accepts every geometry -/

theorem three_not_power_of_two : ¬ ∃ k : Nat, 3 = 2 ^ k := by
  intro ⟨k, hk⟩
  rcases k with _ | _ | k
  · simp at hk
  · simp at hk
  · have h4 : 2 ^ 2 ≤ 2 ^ (k + 1 + 1) :=
      Nat.pow_le_pow_right (by decide) (by omega)
    have : (2 : Nat) ^ 2 = 4 := rfl
    omega

/-- Claim C15 as stated fails: for line size 3 and 5 sets, neither a power of
two, `cache_system_new` returns a cache system, with 3 and 5 stored, the
counters 0 and 10 `INVALID` lines allocated; and so it does for line size 0 and
0 sets, with no line allocated. -/
theorem cache_system_new_accepts_bad_geometry :
    (¬ ∃ k : Nat, 3 = 2 ^ k) ∧
    (cache_system_new 3 5 2).line_size = 3 ∧
    (cache_system_new 3 5 2).num_sets = 5 ∧
    (cache_system_new 3 5 2).associativity = 2 ∧
    (cache_system_new 3 5 2).stats = ⟨0, 0, 0, 0⟩ ∧
    (cache_system_new 3 5 2).cache_lines = List.replicate 10 ⟨0, INVALID⟩ ∧
    (cache_system_new 0 0 2).line_size = 0 ∧
    (cache_system_new 0 0 2).num_sets = 0 ∧
    (cache_system_new 0 0 2).associativity = 2 ∧
    (cache_system_new 0 0 2).stats = ⟨0, 0, 0, 0⟩ ∧
    (cache_system_new 0 0 2).cache_lines = [] :=
  ⟨three_not_power_of_two, rfl, rfl, rfl, rfl, rfl, rfl, rfl, rfl, rfl, rfl⟩

/-- Claim C15 as amended: `cache_system_new` makes no check of the geometry; for
every line size, number of sets and associativity, powers of two or not, it
returns a cache system that stores the three values as given, with all
counters 0, the three widths 0, and `sets * associativity` lines (modulo 2^32),
every one `INVALID`. -/
theorem cache_system_new_accepts_every_geometry (line_size sets associativity : Nat) :
    (cache_system_new line_size sets associativity).line_size = line_size ∧
    (cache_system_new line_size sets associativity).num_sets = sets ∧
    (cache_system_new line_size sets associativity).associativity = associativity ∧
    (cache_system_new line_size sets associativity).stats = ⟨0, 0, 0, 0⟩ ∧
    (cache_system_new line_size sets associativity).cache_lines.length
      = wrap32 (sets * associativity) ∧
    (∀ l, l ∈ (cache_system_new line_size sets associativity).cache_lines →
      l.status = INVALID) := by
  refine ⟨rfl, rfl, rfl, rfl, ?_, ?_⟩
  · simp [cache_system_new]
  · intro l hl
    simp only [cache_system_new] at hl
    rw [List.eq_of_mem_replicate hl]

/-! ## A resident `MODIFIED` line that is read -/

/-- Claim C16, evaluated on the code: on the system built by
`cache_system_new 1 1 1` with the LRU policy, `W 0x00` leaves tag 0 in slot 0
with status `MODIFIED`; the read `R 0x00` then returns 0 and leaves slot 0 with
the same tag and status `EXCLUSIVE`, counting a dirty eviction. -/
theorem read_of_modified_line_makes_it_exclusive :
    ∃ s1 r,
      run_accesses (lru_replacement_policy_new 1 1) (cache_system_new 1 1 1) [] [(0, 'W')]
        = .ok s1 ∧
      s1.cs.associativity = 1 ∧
      set_line s1.cs (decode_set_idx s1.cs 0) 0 = some ⟨decode_tag s1.cs 0, MODIFIED⟩ ∧
      cache_system_mem_access { lru_replacement_policy_new 1 1 with data := s1.data }
        s1.cs 0 'R' = .ok r ∧
      r.ret = 0 ∧
      set_line r.cs (decode_set_idx s1.cs 0) 0 = some ⟨decode_tag s1.cs 0, EXCLUSIVE⟩ ∧
      r.cs.stats.dirty_evictions = s1.cs.stats.dirty_evictions + 1 ∧
      r.cs.stats.hits = 0 :=
  ⟨_, _, rfl, rfl, rfl, rfl, rfl, rfl, rfl, rfl⟩

/-! ## `lru_eviction_index` on a permutation -/

/-- The loop of `lru_eviction_index` on an age row long enough: it returns the
lowest slot of age 0, or `none` when no slot in its range has age 0. -/
theorem lru_find_zero_spec (row : List Nat) (n : Nat) :
    ∀ (i : Nat), i + n ≤ row.length →
      (∃ k, lru_find_zero row n i = .ok (some k) ∧ i ≤ k ∧ k < i + n ∧
        row[k]? = some 0 ∧ ∀ k1 : Nat, i ≤ k1 → k1 < k → row[k1]? ≠ some 0) ∨
      (lru_find_zero row n i = .ok none ∧
        ∀ k1 : Nat, i ≤ k1 → k1 < i + n → row[k1]? ≠ some 0) := by
  induction n with
  | zero =>
    intro i _
    right
    exact ⟨rfl, fun k1 h1 h2 => by omega⟩
  | succ n ih =>
    intro i hb
    have hlt : i < row.length := by omega
    have hget : row[i]? = some row[i] := List.getElem?_eq_getElem hlt
    unfold lru_find_zero
    rw [hget]
    simp only
    by_cases hz : row[i] = 0
    · rw [if_pos hz]
      left
      exact ⟨i, rfl, Nat.le_refl _, by omega, by rw [hget, hz], fun k1 h1 h2 => by omega⟩
    · rw [if_neg hz]
      have hskip : row[i]? ≠ some 0 := by
        rw [hget]
        intro h
        exact hz (Option.some.inj h)
      rcases ih (i + 1) (by omega) with ⟨k, h1, h2, h3, h4, h5⟩ | ⟨h1, h2⟩
      · left
        refine ⟨k, h1, by omega, by omega, h4, fun k1 a1 a2 => ?_⟩
        by_cases hk : k1 = i
        · rw [hk]; exact hskip
        · exact h5 k1 (by omega) a2
      · right
        refine ⟨h1, fun k1 a1 a2 => ?_⟩
        by_cases hk : k1 = i
        · rw [hk]; exact hskip
        · exact h2 k1 (by omega) (by omega)

/-- On an age row that is a permutation of `0, ..., associativity - 1` with
`associativity ≥ 1`, `lru_eviction_index` returns the slot of age 0. -/
theorem lru_eviction_index_of_perm (lru : lru_data) (cs : cache_system)
    (set_idx : Nat) (row : List Nat)
    (hassoc : 1 ≤ lru.associativity) (hrow : lru.ages[set_idx]? = some row)
    (hperm : row.Perm (List.range lru.associativity)) :
    ∃ i, lru_eviction_index lru cs set_idx = .ok i ∧ i < lru.associativity ∧
      row[i]? = some 0 := by
  have hlen : row.length = lru.associativity := by simpa using hperm.length_eq
  have hmem : 0 ∈ row := (hperm.mem_iff).2 (by simp; omega)
  obtain ⟨z, hz⟩ := List.mem_iff_getElem?.1 hmem
  have hzlt : z < row.length := by
    rcases Nat.lt_or_ge z row.length with h | h
    · exact h
    · rw [List.getElem?_eq_none h] at hz; cases hz
  obtain ⟨n, hn⟩ : ∃ n, lru.associativity = n + 1 := ⟨lru.associativity - 1, by omega⟩
  rcases lru_find_zero_spec row (n + 1) 0 (by omega) with ⟨k, h1, _, h3, h4, _⟩ | ⟨_, h2⟩
  · refine ⟨k, ?_, by omega, h4⟩
    simp only [lru_eviction_index, hn, hrow, h1]
  · exact absurd hz (h2 z (Nat.zero_le _) (by omega))

/-- Claim C18: for a set whose age row is a permutation of
`0, ..., associativity - 1`, with `associativity ≥ 1`, `lru_eviction_index`
returns a slot in `[0, associativity)` whose age is 0, the only slot of age 0;
it does not end in `exit(1)` nor in any other fault. -/
theorem lru_eviction_index_unique_zero (lru : lru_data) (cs : cache_system)
    (set_idx : Nat) (row : List Nat)
    (hassoc : 1 ≤ lru.associativity) (hrow : lru.ages[set_idx]? = some row)
    (hperm : row.Perm (List.range lru.associativity)) :
    (∃ i, lru_eviction_index lru cs set_idx = .ok i ∧ i < lru.associativity ∧
      row[i]? = some 0 ∧ ∀ j : Nat, row[j]? = some 0 → j = i) ∧
    lru_eviction_index lru cs set_idx ≠ .error (Fault.exit 1) ∧
    ∀ f, lru_eviction_index lru cs set_idx ≠ .error f := by
  obtain ⟨i, h1, h2, h3⟩ := lru_eviction_index_of_perm lru cs set_idx row hassoc hrow hperm
  have hnodup : row.Nodup := (hperm.nodup_iff).2 (List.nodup_range _)
  have hlen : row.length = lru.associativity := by simpa using hperm.length_eq
  refine ⟨⟨i, h1, h2, h3, fun j hj => ?_⟩, ?_, ?_⟩
  · have hjlt : j < row.length := by
      rcases Nat.lt_or_ge j row.length with h | h
      · exact h
      · rw [List.getElem?_eq_none h] at hj; cases hj
    have hilt : i < row.length := by omega
    have a1 : row[j]? = some row[j] := List.getElem?_eq_getElem hjlt
    have a2 : row[i]? = some row[i] := List.getElem?_eq_getElem hilt
    rw [a1] at hj
    rw [a2] at h3
    have e : row[j] = row[i] := (Option.some.inj hj).trans (Option.some.inj h3).symm
    exact (hnodup.getElem_inj_iff).1 e
  · rw [h1]
    intro h
    cases h
  · intro f
    rw [h1]
    intro h
    cases h

/-- Witness of `lru_eviction_index_unique_zero`: the ages `2, 0, 1` of set 1 of
`lru_witness_system`; slot 1 is returned. -/
theorem lru_eviction_index_unique_zero_witness :
    1 ≤ (⟨[[0, 1, 2], [2, 0, 1]], 2, 3⟩ : lru_data).associativity ∧
    (⟨[[0, 1, 2], [2, 0, 1]], 2, 3⟩ : lru_data).ages[1]? = some [2, 0, 1] ∧
    [2, 0, 1].Perm (List.range 3) ∧
    lru_eviction_index ⟨[[0, 1, 2], [2, 0, 1]], 2, 3⟩ lru_witness_system 1 = .ok 1 ∧
    lru_eviction_index ⟨[[0, 1, 2], [2, 0, 1]], 2, 3⟩ lru_witness_system 1
      ≠ .error (Fault.exit 1) :=
  ⟨by decide, rfl, by decide, rfl,
    (lru_eviction_index_unique_zero ⟨[[0, 1, 2], [2, 0, 1]], 2, 3⟩ lru_witness_system 1
      [2, 0, 1] (by decide) rfl (by decide)).2.1⟩

/-! ## The fallback of `lru_prefer_clean_eviction_index` -/

theorem oldest_any_spec (row : List Nat) (N : Nat) (hrow : N ≤ row.length) (n : Nat) :
    ∀ (i : Nat) (acc : Nat × Nat), i + n = N → any_scan_inv row i acc →
      ∃ acc1, oldest_any (some row) n i acc = .ok acc1 ∧ any_scan_inv row N acc1 := by
  induction n with
  | zero =>
    intro i acc hi hinv
    have : i = N := by omega
    subst this
    exact ⟨acc, rfl, hinv⟩
  | succ n ih =>
    intro i acc hi hinv
    have hrlt : i < row.length := by omega
    have hrget : row[i]? = some row[i] := List.getElem?_eq_getElem hrlt
    unfold oldest_any
    simp only [Option.bind, hrget]
    by_cases ha : row[i] < acc.2
    · rw [if_pos ha]
      apply ih (i + 1) (i, row[i]) (by omega)
      right
      have hamax : row[i] < UINT32_MAX := by
        rcases hinv with ⟨h1, _⟩ | ⟨_, _, h3, _⟩
        · rw [h1] at ha; exact ha
        · exact Nat.lt_trans ha h3
      refine ⟨by simp, hrget, hamax, fun k a hk hr => ?_⟩
      by_cases hki : k = i
      · subst hki
        rw [hrget] at hr
        have := Option.some.inj hr
        simp only
        omega
      · simp only
        rcases hinv with ⟨h1, h2⟩ | ⟨_, _, _, h4⟩
        · have := h2 k a (by omega) hr
          omega
        · have := h4 k a (by omega) hr
          omega
    · rw [if_neg ha]
      apply ih (i + 1) acc (by omega)
      rcases hinv with ⟨h1, h2⟩ | ⟨g1, g2, g3, g4⟩
      · left
        refine ⟨h1, fun k a hk hr => ?_⟩
        by_cases hki : k = i
        · subst hki
          rw [hrget] at hr
          have := Option.some.inj hr
          rw [h1] at ha
          simp only at ha
          omega
        · exact h2 k a (by omega) hr
      · right
        refine ⟨by omega, g2, g3, fun k a hk hr => ?_⟩
        by_cases hki : k = i
        · subst hki
          rw [hrget] at hr
          have := Option.some.inj hr
          omega
        · exact g4 k a (by omega) hr

/-- Claim C19 as amended: for an allocated set of associativity at least 1 that
holds no `EXCLUSIVE` line and whose age row is a permutation of
`0, ..., associativity - 1`, `lru_prefer_clean_eviction_index` returns the slot
of least age of the whole set, and `lru_eviction_index` returns the same slot on
the same ages. -/
theorem prefer_clean_falls_back_to_lru (lru : lru_data) (cs : cache_system)
    (set_idx : Nat) (row : List Nat)
    (hassoc : 1 ≤ cs.associativity) (heq : lru.associativity = cs.associativity)
    (halloc : set_allocated cs set_idx)
    (hrow : lru.ages[set_idx]? = some row)
    (hperm : row.Perm (List.range cs.associativity))
    (hnoclean : ∀ k l, k < cs.associativity → set_line cs set_idx k = some l →
      l.status ≠ EXCLUSIVE) :
    ∃ i a, lru_prefer_clean_eviction_index lru cs set_idx = .ok i ∧
      i < cs.associativity ∧ row[i]? = some a ∧
      (∀ (k : Nat) b, row[k]? = some b → a ≤ b) ∧
      lru_eviction_index lru cs set_idx = .ok i := by
  obtain ⟨hb1, hb2⟩ := halloc
  have hlen : row.length = cs.associativity := by simpa using hperm.length_eq
  have hstart := set_start_of_eq cs set_idx (by omega)
  -- the first loop sees no clean line
  obtain ⟨acc1, h1, hinv1⟩ := oldest_clean_spec cs.cache_lines row
    (set_idx * cs.associativity) cs.associativity hb1 (by omega) cs.associativity 0
    (UINT32_MAX, UINT32_MAX) (by omega) (Or.inl ⟨rfl, fun k l a hk => by omega⟩)
  have hacc1 : acc1 = (UINT32_MAX, UINT32_MAX) := by
    rcases hinv1 with ⟨h, _⟩ | ⟨g1, ⟨l, g2, g2s⟩, _⟩
    · exact h
    · exact absurd g2s (hnoclean acc1.1 l g1 g2)
  -- the second loop returns the slot of least age
  obtain ⟨acc2, h2, hinv2⟩ := oldest_any_spec row cs.associativity (by omega)
    cs.associativity 0 (0, UINT32_MAX) (by omega) (Or.inl ⟨rfl, fun k a hk => by omega⟩)
  have hbound : ∀ (k : Nat) b, row[k]? = some b → b < cs.associativity := by
    intro k b hk
    have : b ∈ row := List.getElem?_mem hk
    simpa using (hperm.mem_iff).1 this
  have h0lt : 0 < row.length := by omega
  have h0get : row[0]? = some row[0] := List.getElem?_eq_getElem h0lt
  rcases hinv2 with ⟨_, h⟩ | ⟨g1, g2, g3, g4⟩
  · have a1 := h 0 row[0] (by omega) h0get
    have a2 := hbound 0 row[0] h0get
    unfold UINT32_MAX at a1
    omega
  · have hmin : ∀ (k : Nat) b, row[k]? = some b → acc2.2 ≤ b := by
      intro k b hk
      have hklt : k < row.length := by
        rcases Nat.lt_or_ge k row.length with h | h
        · exact h
        · rw [List.getElem?_eq_none h] at hk; cases hk
      exact g4 k b (by omega) hk
    -- the least age is 0, and the slot of age 0 is the one LRU returns
    obtain ⟨i, e1, _, e3⟩ := lru_eviction_index_of_perm lru cs set_idx row
      (by omega) hrow (by rw [heq]; exact hperm)
    have hzero : acc2.2 = 0 := by
      have := hmin i 0 e3
      omega
    have hsame : acc2.1 = i := by
      have hnodup : row.Nodup := (hperm.nodup_iff).2 (List.nodup_range _)
      have hilt : i < row.length := by
        rcases Nat.lt_or_ge i row.length with h | h
        · exact h
        · rw [List.getElem?_eq_none h] at e3; cases e3
      have hjlt : acc2.1 < row.length := by omega
      have a1 : row[acc2.1]? = some row[acc2.1] := List.getElem?_eq_getElem hjlt
      have a2 : row[i]? = some row[i] := List.getElem?_eq_getElem hilt
      rw [a1, hzero] at g2
      rw [a2] at e3
      have e : row[acc2.1] = row[i] := (Option.some.inj g2).trans (Option.some.inj e3).symm
      exact (hnodup.getElem_inj_iff).1 e
    refine ⟨acc2.1, acc2.2, ?_, g1, g2, hmin, by rw [hsame]; exact e1⟩
    unfold lru_prefer_clean_eviction_index
    simp only [hstart, hrow, h1, hacc1, h2]
    simp

/-- Witness of `prefer_clean_falls_back_to_lru`: two `MODIFIED` lines with ages
1, 0; both functions return slot 1. -/
theorem prefer_clean_falls_back_to_lru_witness :
    1 ≤ all_dirty_system.associativity ∧
    (⟨[[1, 0]], 1, 2⟩ : lru_data).associativity = all_dirty_system.associativity ∧
    set_allocated all_dirty_system 0 ∧
    (⟨[[1, 0]], 1, 2⟩ : lru_data).ages[0]? = some [1, 0] ∧
    [1, 0].Perm (List.range all_dirty_system.associativity) ∧
    lru_prefer_clean_eviction_index ⟨[[1, 0]], 1, 2⟩ all_dirty_system 0 = .ok 1 ∧
    lru_eviction_index ⟨[[1, 0]], 1, 2⟩ all_dirty_system 0 = .ok 1 ∧
    ∃ i a, lru_prefer_clean_eviction_index ⟨[[1, 0]], 1, 2⟩ all_dirty_system 0 = .ok i ∧
      i < all_dirty_system.associativity ∧ [1, 0][i]? = some a ∧
      (∀ (k : Nat) b, [1, 0][k]? = some b → a ≤ b) ∧
      lru_eviction_index ⟨[[1, 0]], 1, 2⟩ all_dirty_system 0 = .ok i :=
  ⟨by decide, rfl, ⟨by decide, by decide⟩, rfl, by decide, rfl, rfl,
    prefer_clean_falls_back_to_lru ⟨[[1, 0]], 1, 2⟩ all_dirty_system 0 [1, 0] (by decide)
      rfl ⟨by decide, by decide⟩ rfl (by decide)
      (by
        intro k l hk hl
        have hk2 : k < 2 := hk
        interval_cases k
        · have : l = ⟨1, MODIFIED⟩ := (Option.some.inj hl).symm
          rw [this]; decide
        · have : l = ⟨2, MODIFIED⟩ := (Option.some.inj hl).symm
          rw [this]; decide)⟩

/-- Claim C19 as stated fails for associativity 0: the set of `zero_way_system`
holds no line, so no `EXCLUSIVE` line, and its empty age row is a permutation of
the empty range; `lru_prefer_clean_eviction_index` returns 0, which is no slot
of the set, while `lru_eviction_index` ends in `exit(1)`. -/
theorem prefer_clean_fallback_differs_without_lines :
    zero_way_system.associativity = 0 ∧
    (∀ k l, k < zero_way_system.associativity → set_line zero_way_system 0 k = some l →
      l.status ≠ EXCLUSIVE) ∧
    (lru_prefer_clean_replacement_policy_new 1 0).data.ages[0]? = some [] ∧
    ([] : List Nat).Perm (List.range zero_way_system.associativity) ∧
    lru_prefer_clean_eviction_index (lru_prefer_clean_replacement_policy_new 1 0).data
      zero_way_system 0 = .ok 0 ∧
    set_line zero_way_system 0 0 = none ∧
    lru_eviction_index (lru_prefer_clean_replacement_policy_new 1 0).data
      zero_way_system 0 = .error (Fault.exit 1) :=
  ⟨rfl, fun k _ hk => absurd hk (Nat.not_lt_zero k), rfl, List.Perm.refl _, rfl, rfl, rfl⟩

/-! ## The exact age update of `lru_cache_access` -/

theorem lru_index_eq (cs : cache_system) (set_idx k : Nat)
    (halloc : set_allocated cs set_idx) (hk : k < cs.associativity) :
    wrap32 (wrap32 (set_idx * cs.associativity) + k) = set_idx * cs.associativity + k := by
  obtain ⟨_, hb2⟩ := halloc
  unfold wrap32
  omega

/-- The search loop of `lru_cache_access` on an allocated set, in terms of the
slots of the set. -/
theorem lru_find_accessed_set (lru : lru_data) (cs : cache_system) (set_idx tag : Nat)
    (halloc : set_allocated cs set_idx) (heq : lru.associativity = cs.associativity) :
    (∃ k l, lru_find_accessed cs.cache_lines (wrap32 (set_idx * cs.associativity)) tag
        lru.associativity 0 = .ok (some k) ∧ k < cs.associativity ∧
      set_line cs set_idx k = some l ∧ l.status ≠ INVALID ∧ l.tag = tag ∧
      ∀ k1 l1, k1 < k → set_line cs set_idx k1 = some l1 →
        ¬ (l1.status ≠ INVALID ∧ l1.tag = tag)) ∨
    (lru_find_accessed cs.cache_lines (wrap32 (set_idx * cs.associativity)) tag
        lru.associativity 0 = .ok none ∧
      ∀ k1 l1, k1 < cs.associativity → set_line cs set_idx k1 = some l1 →
        ¬ (l1.status ≠ INVALID ∧ l1.tag = tag)) := by
  have hin : ∀ k, 0 ≤ k → k < 0 + lru.associativity →
      wrap32 (wrap32 (set_idx * cs.associativity) + k) < cs.cache_lines.length := by
    intro k _ hk
    rw [lru_index_eq cs set_idx k halloc (by omega)]
    have := halloc.1
    omega
  rcases lru_find_accessed_spec cs.cache_lines (wrap32 (set_idx * cs.associativity)) tag
      lru.associativity 0 hin with ⟨k, h1, _, h3, ⟨l, h4, h5, h6⟩, h7⟩ | ⟨h1, h2⟩
  · left
    have hk : k < cs.associativity := by omega
    refine ⟨k, l, h1, hk, ?_, h5, h6, fun k1 l1 a1 a2 => ?_⟩
    · rw [lru_index_eq cs set_idx k halloc hk] at h4
      exact h4
    · apply h7 k1 (Nat.zero_le _) a1 l1
      rw [lru_index_eq cs set_idx k1 halloc (by omega)]
      exact a2
  · right
    refine ⟨h1, fun k1 l1 a1 a2 => ?_⟩
    apply h2 k1 (Nat.zero_le _) (by omega) l1
    rw [lru_index_eq cs set_idx k1 halloc a1]
    exact a2

/-- Claim C20: on an allocated set with an age row of at least `associativity`
entries, let `s` be the lowest slot whose line is not `INVALID` and holds the
tag, and `a` its age.  Then `lru_cache_access` returns; afterwards slot `s` has
age `associativity - 1`, every other slot of the set whose age was above `a` has
its age decreased by 1, every other slot whose age was at most `a` keeps it, the
order of the ages of the other slots is kept, and the age rows of the other sets
are unchanged.  When the set has no such slot the call returns the policy data
unchanged. -/
theorem lru_cache_access_exact_update (lru : lru_data) (cs : cache_system)
    (set_idx tag : Nat) (row : List Nat)
    (halloc : set_allocated cs set_idx) (heq : lru.associativity = cs.associativity)
    (hrow : lru.ages[set_idx]? = some row) (hlen : cs.associativity ≤ row.length) :
    (∀ s l a, s < cs.associativity → set_line cs set_idx s = some l →
      l.status ≠ INVALID → l.tag = tag →
      (∀ s1 l1, s1 < s → set_line cs set_idx s1 = some l1 →
        ¬ (l1.status ≠ INVALID ∧ l1.tag = tag)) →
      row[s]? = some a →
      ∃ lru1 row1, lru_cache_access lru cs set_idx tag = .ok lru1 ∧
        lru1.ages[set_idx]? = some row1 ∧
        row1[s]? = some (cs.associativity - 1) ∧
        (∀ (j : Nat) b, j ≠ s → j < cs.associativity → row[j]? = some b → a < b →
          row1[j]? = some (b - 1)) ∧
        (∀ (j : Nat) b, j ≠ s → row[j]? = some b → b ≤ a → row1[j]? = some b) ∧
        (∀ (j1 j2 : Nat) b1 b2 c1 c2, j1 ≠ s → j2 ≠ s →
          j1 < cs.associativity → j2 < cs.associativity →
          row[j1]? = some b1 → row[j2]? = some b2 →
          row1[j1]? = some c1 → row1[j2]? = some c2 →
          (b1 ≤ b2 → c1 ≤ c2) ∧ (b1 < b2 → b1 ≠ a → c1 < c2)) ∧
        (∀ j : Nat, j ≠ set_idx → lru1.ages[j]? = lru.ages[j]?) ∧
        lru1.sets = lru.sets ∧ lru1.associativity = lru.associativity) ∧
    ((∀ s l, s < cs.associativity → set_line cs set_idx s = some l →
        ¬ (l.status ≠ INVALID ∧ l.tag = tag)) →
      lru_cache_access lru cs set_idx tag = .ok lru) := by
  have hfind := lru_find_accessed_set lru cs set_idx tag halloc heq
  constructor
  · intro s l a hs hl hst htag hlow ha
    rcases hfind with ⟨k, lk, h1, h2, h3, h4, h5, h6⟩ | ⟨_, h2⟩
    · have hks : k = s := by
        rcases Nat.lt_trichotomy k s with c | c | c
        · exact absurd ⟨h4, h5⟩ (hlow k lk c h3)
        · exact c
        · exact absurd ⟨hst, htag⟩ (h6 s l c hl)
      subst hks
      have hsmall : k < 2147483648 := by have := halloc.2; omega
      obtain ⟨pre, hres, hprelen, hpre⟩ := lru_cache_access_of_some lru cs set_idx tag row k a
        h1 hsmall hrow ha (by omega)
      have hsub : sub32 lru.associativity 1 = cs.associativity - 1 := by
        rw [heq]
        exact sub32_one _ (by omega) (by have := halloc.2; omega)
      rw [hsub] at hres
      have hsetlt : set_idx < lru.ages.length := by
        rcases Nat.lt_or_ge set_idx lru.ages.length with h | h
        · exact h
        · rw [List.getElem?_eq_none h] at hrow; cases hrow
      have hother : ∀ (j : Nat) b, j ≠ k → row[j]? = some b →
          (pre.set k (cs.associativity - 1))[j]?
            = some (if j < cs.associativity then (if b > a then b - 1 else b) else b) := by
        intro j b hj hb
        rw [List.getElem?_set_ne (Ne.symm hj), hpre j, hb, heq]
        split_ifs <;> simp_all
      refine ⟨_, pre.set k (cs.associativity - 1), hres, ?_, ?_, ?_, ?_, ?_, ?_, rfl, rfl⟩
      · exact List.getElem?_set_self hsetlt
      · exact List.getElem?_set_self (by omega)
      · intro j b hj hjlt hb hab
        rw [hother j b hj hb, if_pos hjlt, if_pos hab]
      · intro j b hj hb hba
        rw [hother j b hj hb]
        have : ¬ (b > a) := by omega
        split_ifs <;> rfl
      · intro j1 j2 b1 b2 c1 c2 hj1 hj2 hl1 hl2 hb1 hb2 hc1 hc2
        rw [hother j1 b1 hj1 hb1, if_pos hl1] at hc1
        rw [hother j2 b2 hj2 hb2, if_pos hl2] at hc2
        have e1 := Option.some.inj hc1
        have e2 := Option.some.inj hc2
        constructor
        · intro hle
          rw [← e1, ← e2]
          split_ifs <;> omega
        · intro hlt hne
          rw [← e1, ← e2]
          split_ifs <;> omega
      · intro j hj
        exact List.getElem?_set_ne (Ne.symm hj)
    · exact absurd ⟨hst, htag⟩ (h2 s l hs hl)
  · intro hnone
    rcases hfind with ⟨k, lk, _, h2, h3, h4, h5, _⟩ | ⟨h1, _⟩
    · exact absurd ⟨h4, h5⟩ (hnone k lk h2 h3)
    · exact lru_cache_access_of_none lru cs set_idx tag h1

/-- Witness of `lru_cache_access_exact_update`: set 1 of `lru_witness_system`,
tag 7 in slot 1, ages `2, 0, 1`; the access gives `1, 2, 0`. -/
theorem lru_cache_access_exact_update_witness :
    set_allocated lru_witness_system 1 ∧
    (⟨[[0, 1, 2], [2, 0, 1]], 2, 3⟩ : lru_data).associativity
      = lru_witness_system.associativity ∧
    (⟨[[0, 1, 2], [2, 0, 1]], 2, 3⟩ : lru_data).ages[1]? = some [2, 0, 1] ∧
    lru_witness_system.associativity ≤ [2, 0, 1].length ∧
    set_line lru_witness_system 1 1 = some ⟨7, MODIFIED⟩ ∧
    [2, 0, 1][1]? = some 0 ∧
    lru_cache_access ⟨[[0, 1, 2], [2, 0, 1]], 2, 3⟩ lru_witness_system 1 7
      = .ok ⟨[[0, 1, 2], [1, 2, 0]], 2, 3⟩ ∧
    ∃ lru1 row1, lru_cache_access ⟨[[0, 1, 2], [2, 0, 1]], 2, 3⟩ lru_witness_system 1 7
        = .ok lru1 ∧
      lru1.ages[1]? = some row1 ∧
      row1[1]? = some (lru_witness_system.associativity - 1) := by
  have hlow : ∀ s1 l1, s1 < 1 → set_line lru_witness_system 1 s1 = some l1 →
      ¬ (l1.status ≠ INVALID ∧ l1.tag = 7) := by
    intro s1 l1 hs hl
    interval_cases s1
    have : l1 = ⟨5, EXCLUSIVE⟩ := (Option.some.inj hl).symm
    rw [this]; decide
  obtain ⟨lru1, row1, h1, h2, h3, _⟩ :=
    (lru_cache_access_exact_update ⟨[[0, 1, 2], [2, 0, 1]], 2, 3⟩ lru_witness_system 1 7
      [2, 0, 1] ⟨by decide, by decide⟩ rfl rfl (by decide)).1 1 ⟨7, MODIFIED⟩ 0 (by decide)
      rfl (by decide) rfl hlow rfl
  exact ⟨⟨by decide, by decide⟩, rfl, rfl, by decide, rfl, rfl, rfl, lru1, row1, h1, h2, h3⟩

/-! ## The shared update rule, duplicate tags, and the range of the set index -/

/-- Claim C21: for every policy data, cache system, set index and tag,
`lru_prefer_clean_cache_access` gives the result of `lru_cache_access`: the same
fault or the same policy data, so the same age rows; and the policies built by
the two constructors start from the same data and apply the same update. -/
theorem prefer_clean_shares_lru_update (lru : lru_data) (cs : cache_system)
    (set_idx tag : Nat) :
    lru_prefer_clean_cache_access lru cs set_idx tag = lru_cache_access lru cs set_idx tag ∧
    (∀ lru1 lru2, lru_prefer_clean_cache_access lru cs set_idx tag = .ok lru1 →
      lru_cache_access lru cs set_idx tag = .ok lru2 → lru1.ages = lru2.ages) ∧
    (∀ sets associativity,
      (lru_prefer_clean_replacement_policy_new sets associativity).data
        = (lru_replacement_policy_new sets associativity).data ∧
      (lru_prefer_clean_replacement_policy_new sets associativity).cache_access lru cs
          set_idx tag
        = (lru_replacement_policy_new sets associativity).cache_access lru cs set_idx tag) := by
  have h : lru_prefer_clean_cache_access lru cs set_idx tag
      = lru_cache_access lru cs set_idx tag := by
    unfold lru_prefer_clean_cache_access lru_cache_access
    rfl
  refine ⟨h, fun lru1 lru2 h1 h2 => ?_, fun sets associativity => ⟨rfl, h⟩⟩
  rw [h, h2] at h1
  rw [Except.ok.inj h1]

/-- Claim C22, evaluated on the code: on the system built by
`cache_system_new 16 2 2` with the LRU policy, the two calls `R 0x00`, `R 0x00`
return 0 and leave tag 0 in slot 0 and in slot 1 of set 0, both `EXCLUSIVE`:
two distinct slots of one set that are not `INVALID` and hold the same tag. -/
theorem repeated_read_installs_tag_twice :
    ∃ final,
      run_accesses (lru_replacement_policy_new 2 2) (cache_system_new 16 2 2) []
        [(0, 'R'), (0, 'R')] = .ok final ∧
      final.rets = [0, 0] ∧
      decode_set_idx final.cs 0 = 0 ∧
      set_line final.cs 0 0 = some ⟨0, EXCLUSIVE⟩ ∧
      set_line final.cs 0 1 = some ⟨0, EXCLUSIVE⟩ ∧
      (0 : Nat) ≠ 1 ∧ EXCLUSIVE ≠ INVALID ∧
      final.cs.stats = ⟨2, 0, 2, 0⟩ :=
  ⟨_, rfl, rfl, rfl, rfl, rfl, by decide, by decide, rfl⟩

/-- Claim C23, evaluated on the code: on every system that `cache_system_new`
returns, the set index computed by `cache_system_mem_access` is the address
itself (modulo 2^32); for 2 sets of 2 lines and address `0x10` it is 16, not
below `num_sets = 2`, the line index `16 * 2 + 0` is outside the 4 allocated
lines, and the call has no defined result. -/
theorem set_index_is_the_address (line_size sets associativity address : Nat) :
    decode_set_idx (cache_system_new line_size sets associativity) address
      = address % 4294967296 ∧
    (cache_system_new 16 2 2).num_sets = 2 ∧
    decode_set_idx (cache_system_new 16 2 2) 16 = 16 ∧
    ¬ (decode_set_idx (cache_system_new 16 2 2) 16 < (cache_system_new 16 2 2).num_sets) ∧
    (cache_system_new 16 2 2).cache_lines.length = 4 ∧
    ¬ (decode_set_idx (cache_system_new 16 2 2) 16 * (cache_system_new 16 2 2).associativity
        + 0 < (cache_system_new 16 2 2).cache_lines.length) ∧
    set_line (cache_system_new 16 2 2) (decode_set_idx (cache_system_new 16 2 2) 16) 0
      = none ∧
    cache_system_mem_access (lru_replacement_policy_new 2 2) (cache_system_new 16 2 2) 16 'R'
      = .error Fault.undefined := by
  refine ⟨?_, rfl, rfl, by decide, rfl, by decide, rfl, rfl⟩
  have hmask : (cache_system_new line_size sets associativity).set_index_mask
      = 2 ^ 32 - 1 := rfl
  have hoff : (cache_system_new line_size sets associativity).offset_bits = 0 := rfl
  unfold decode_set_idx shr32
  rw [hmask, hoff, Nat.and_pow_two_sub_one_eq_mod, Nat.zero_mod, Nat.shiftRight_zero]

end CacheSim
